import Mathlib

/-!
Shallow embedding of the Shrdlite core (Vioh/TIN175): the interpreter
(`src/Interpreter.ts` and the draft `src/unnamed/part_000`), the planner and
its A* search (`src/unnamed/part_001` and `src/AStarSearch.ts`), and the
shared types (`src/Types.ts`).  TypeScript numbers are modelled as `Int`
(with an extended type `JSNum` where JavaScript's `Infinity` / `-Infinity`
can arise), `T | null` as `Option`, thrown string errors as
`Except String`, and mutation as explicit state passing.
-/

set_option maxHeartbeats 1000000

/-- `SimpleObject` from Types.ts: a form plus optional size and color.
All three are strings in the source ("ball", "small", "white", ...). -/
structure SimpleObject where
  form : String
  size : Option String
  color : Option String
deriving DecidableEq, Repr

/-- `Literal` from Types.ts: a relation applied to a list of object ids. -/
structure Literal where
  relation : String
  args : List String
  polarity : Bool := true
deriving DecidableEq, Repr

/-- `Conjunction` from Types.ts: a list of literals understood as AND. -/
structure Conjunction where
  literals : List Literal
deriving DecidableEq, Repr

/-- `DNFFormula` from Types.ts: a list of conjunctions understood as OR. -/
structure DNFFormula where
  conjuncts : List Conjunction
deriving DecidableEq, Repr

mutual

/-- The object-description tree from Types.ts (`Object` in the source,
mutually recursive with `Location` and `Entity`). -/
inductive ObjectDesc where
  | simple (form : String) (size : Option String) (color : Option String)
  | relative (object : ObjectDesc) (location : LocationDesc)
  | complex (object1 : ObjectDesc) (object2 : ObjectDesc) (operator : String)

/-- `Location` from Types.ts: a relation and a target entity. -/
inductive LocationDesc where
  | mk (relation : String) (entity : EntityDesc)

/-- `Entity` from Types.ts: a quantifier and an object description. -/
inductive EntityDesc where
  | mk (quantifier : String) (object : ObjectDesc)

end

/-- Field accessor for `LocationDesc.relation`. -/
def LocationDesc.relation : LocationDesc → String
  | .mk r _ => r

/-- Field accessor for `LocationDesc.entity`. -/
def LocationDesc.entity : LocationDesc → EntityDesc
  | .mk _ e => e

/-- Field accessor for `EntityDesc.quantifier`. -/
def EntityDesc.quantifier : EntityDesc → String
  | .mk q _ => q

/-- Field accessor for `EntityDesc.object`. -/
def EntityDesc.object : EntityDesc → ObjectDesc
  | .mk _ o => o

/-- `Command` from Types.ts: take, drop or move. -/
inductive Command where
  | take (entity : EntityDesc)
  | drop (location : LocationDesc)
  | move (entity : EntityDesc) (location : LocationDesc)

/-- World snapshot (`WorldState` from World.ts, as consumed by the core):
stacks of object ids (bottom first), the arm column, the held object, and
the catalogue mapping ids to descriptions (an insertion-ordered record in
JavaScript, hence an association list here).  The `examples` field of the
source is UI-only and not consumed by the core, so it is omitted. -/
structure WorldState where
  «stacks» : List (List String)
  holding : Option String
  arm : Nat
  objects : List (String × SimpleObject)
deriving DecidableEq, Repr

/-- Helper from Interpreter.ts: `memberOf(needle, haystack)` is
`haystack.indexOf(needle) > -1`. -/
def memberOf (needle : String) (haystack : List String) : Bool :=
  haystack.contains needle

/-- `world.objects[id]`: catalogue lookup.  The source indexes the record
directly; on an id missing from the catalogue it would yield `undefined`
and crash on the first property access, a situation that cannot arise for
the world snapshots the core receives, so we return a marker object. -/
def getObj (w : WorldState) (id : String) : SimpleObject :=
  match w.objects.lookup id with
  | some o => o
  | none => ⟨"undefined", none, none⟩

namespace InterpTS

/-- `Interpreter.validate` from src/Interpreter.ts (lines 187-235): returns
the violation message if relating `obj1` to `obj2` by `rel` breaks a
physical law, and `none` otherwise.  The control flow mirrors the source
exactly; in particular the "large box on large pyramid" test is a separate
top-level `if` in the source (the preceding `if` has no braces, so only the
small/small test is inside the box/pyramid-brick guard), and the
same-object test is the last rule. -/
def validate (w : WorldState) (rel obj1 obj2 : String) : Option String :=
  let floor : SimpleObject := ⟨"floor", none, none⟩
  let a : SimpleObject := if obj1 == "floor" then floor else getObj w obj1
  let b : SimpleObject := if obj2 == "floor" then floor else getObj w obj2
  if a.form == "floor" then
    some "I cannot take the floor"
  else if b.form == "floor" && memberOf rel ["under", "leftof", "rightof", "beside", "inside"] then
    some ("Nothing can be " ++ rel ++ " the floor.")
  else if a.form == "ball" && b.form != "floor" && rel == "ontop" then
    some "A ball can only be ontop the floor"
  else if a.form == "ball" && rel == "under" then
    some "A ball cannot be under anything"
  else if b.form == "ball" && memberOf rel ["ontop", "above"] then
    some ("Nothing can be " ++ rel ++ " a ball")
  else if b.form != "box" && rel == "inside" then
    some ("Nothing can be inside a " ++ b.form)
  else if b.form == "box" && rel == "ontop" then
    some "Nothing can be ontop a box"
  else if memberOf a.form ["pyramid", "plank", "box"] && b.form == "box" && rel == "inside"
      && a.size == b.size then
    some ("A " ++ a.form ++ " cannot be inside a box of the same size")
  else if a.form == "box" && memberOf b.form ["pyramid", "brick"] && rel == "ontop"
      && a.size == some "small" && b.size == some "small" then
    some ("A small box cannot be ontop a small " ++ b.form)
  else if a.size == some "large" && b.size == some "large" && b.form == "pyramid" then
    some "A large box cannot be ontop a large pyramid"
  else if memberOf rel ["inside", "ontop"] && a.size == some "large" && b.size == some "small" then
    some ("A large object cannot be " ++ rel ++ " a small one")
  else if obj1 == obj2 then
    some ("Nothing can be " ++ rel ++ " itself")
  else
    none

end InterpTS

/-- A tiny catalogue used by the concrete counterexamples: one large brick
and one large pyramid sitting on the floor of separate stacks. -/
def wBrickPyramid : WorldState :=
  { «stacks» := [["LargeBrick"], ["LargePyramid"]]
    holding := none
    arm := 0
    objects := [("LargeBrick", ⟨"brick", some "large", some "green"⟩),
                ("LargePyramid", ⟨"pyramid", some "large", some "red"⟩)] }

/-- Insertion-ordered set of strings, as `Set<string>` from
typescript-collections behaves under `add` / `toArray`: adding an element
already present is a no-op, and `toArray` lists elements in first-insertion
order. -/
def dedupAdd (acc : List String) (e : String) : List String :=
  if e ∈ acc then acc else acc ++ [e]

namespace InterpTS

/-- The physics violations collected (deduplicated, in first-insertion
order) while `handleQuantifiers` walks `A × B` in subject-major order.
In the source the `errors` set is filled inside each quantifier branch;
the only branch that can ever reach the final `errors.toArray().join`
is the neither-`all` branch (the other three always push one conjunction
per element of a non-empty list), and that branch fills the set in exactly
this subject-major order. -/
def errorsOf (w : WorldState) (objectsA objectsB : List String) (rel : String) : List String :=
  (objectsA.flatMap (fun a => objectsB.filterMap (fun b => validate w rel a b))).foldl dedupAdd []

/-- `Interpreter.handleQuantifiers` from src/Interpreter.ts (lines
110-184): expand resolved sets `A`, `B` with quantifiers into a DNF, or
throw.  The pre-checks and the four quantifier branches mirror the source;
the source's `forEach` loops that push one literal (or one conjunction) per
legal pair are written as `map`/`filterMap`/`flatMap` over the same
traversal order. -/
def handleQuantifiers (w : WorldState) (objectsA objectsB : List String)
    (quanA quanB rel : String) : Except String DNFFormula :=
  if objectsA.length == 0 then .error "Couldn't find any matching object"
  else if objectsB.length == 0 then .error "Couldn't find any matching destination"
  else if quanA == "the" && objectsA.length > 1 then
    .error "Too many matching objects for \"the\" quantifier"
  else if quanB == "the" && objectsB.length > 1 then
    .error "Too many matching destinations for \"the\" quantifier"
  else if memberOf rel ["ontop", "inside"] && quanB == "all" && objectsB.length > 1
      && !(objectsB.headD "" == "floor") then
    .error ("Things can only be " ++ rel ++ " exactly one object")
  else if memberOf rel ["ontop", "inside"] && quanA == "all" && objectsA.length > 1 then
    .error ("Only 1 thing can be " ++ rel ++ " another object")
  else
    let conjunctions : List Conjunction :=
      if quanA == "all" && quanB == "all" then
        [⟨objectsA.flatMap (fun a => objectsB.filterMap (fun b =>
            if (validate w rel a b).isSome then none
            else some ⟨rel, [a, b], true⟩))⟩]
      else if quanA == "all" then
        objectsB.map (fun b => ⟨objectsA.filterMap (fun a =>
            if (validate w rel a b).isSome then none
            else some ⟨rel, [a, b], true⟩)⟩)
      else if quanB == "all" then
        objectsA.map (fun a => ⟨objectsB.filterMap (fun b =>
            if (validate w rel a b).isSome then none
            else some ⟨rel, [a, b], true⟩)⟩)
      else
        objectsA.flatMap (fun a => objectsB.filterMap (fun b =>
            if (validate w rel a b).isSome then none
            else some (Conjunction.mk [⟨rel, [a, b], true⟩])))
    if conjunctions.length == 0 then
      .error (String.intercalate "; " (errorsOf w objectsA objectsB rel))
    else .ok ⟨conjunctions⟩

end InterpTS

namespace InterpP0

/-- `Interpreter.validate` from src/unnamed/part_000 (lines 171-225).  It
differs from the src/Interpreter.ts version in one place: the same-object
test sits right after the two floor rules (argument order in the source is
`(obj1, obj2, rel)`; we keep that order).  The box/pyramid-brick guard has
the same braceless dangling `if` as the other draft, so the "large box on
large pyramid" test is again a top-level rule. -/
def validate (w : WorldState) (obj1 obj2 rel : String) : Option String :=
  let floor : SimpleObject := ⟨"floor", none, none⟩
  let a : SimpleObject := if obj1 == "floor" then floor else getObj w obj1
  let b : SimpleObject := if obj2 == "floor" then floor else getObj w obj2
  if a.form == "floor" then
    some "I cannot take the floor"
  else if b.form == "floor" && memberOf rel ["under", "leftof", "rightof", "beside", "inside"] then
    some ("Nothing can be " ++ rel ++ " the floor.")
  else if obj1 == obj2 then
    some ("Nothing can be " ++ rel ++ " itself")
  else if a.form == "ball" && b.form != "floor" && rel == "ontop" then
    some "A ball can only be ontop the floor"
  else if a.form == "ball" && rel == "under" then
    some "A ball cannot be under anything"
  else if b.form == "ball" && memberOf rel ["ontop", "above"] then
    some ("Nothing can be " ++ rel ++ " a ball")
  else if b.form != "box" && rel == "inside" then
    some ("Nothing can be inside a " ++ b.form)
  else if b.form == "box" && rel == "ontop" then
    some "Nothing can be ontop a box"
  else if memberOf a.form ["pyramid", "plank", "box"] && b.form == "box" && rel == "inside"
      && a.size == b.size then
    some ("A " ++ a.form ++ " cannot be inside a box of the same size")
  else if a.form == "box" && memberOf b.form ["pyramid", "brick"] && rel == "ontop"
      && a.size == some "small" && b.size == some "small" then
    some ("A small box cannot be ontop a small " ++ b.form)
  else if a.size == some "large" && b.size == some "large" && b.form == "pyramid" then
    some "A large box cannot be ontop a large pyramid"
  else if memberOf rel ["inside", "ontop"] && a.size == some "large" && b.size == some "small" then
    some ("A large object cannot be " ++ rel ++ " a small one")
  else
    none

end InterpP0

/-- A world holding just the two balls of the repo's "small" test world;
used by the counterexamples around `put all balls on the floor`. -/
def wTwoBalls : WorldState :=
  { «stacks» := [["LargeWhiteBall"], ["SmallBlackBall"]]
    holding := none
    arm := 0
    objects := [("LargeWhiteBall", ⟨"ball", some "large", some "white"⟩),
                ("SmallBlackBall", ⟨"ball", some "small", some "black"⟩)] }

/-- `Array.prototype.indexOf` restricted to a hit-or-miss result: the
index of the first occurrence, or `none` where the source checks
`indexOf(...) > -1` resp. uses the index. -/
def indexOfFirst : List String → String → Option Nat
  | [], _ => none
  | x :: xs, obj => if x == obj then some 0 else (indexOfFirst xs obj).map (fun j => j + 1)

/-- `Dictionary.setValue` of typescript-collections on a string-keyed
dictionary: overwrite the entry if the key is present, append otherwise
(string keys of a JavaScript object enumerate in insertion order). -/
def setValueD (d : List (String × Int)) (k : String) (v : Int) : List (String × Int) :=
  if d.any (fun p => p.1 == k) then d.map (fun p => if p.1 == k then (k, v) else p)
  else d ++ [(k, v)]

/-- `Dictionary.getValue`: `none` plays the role of `undefined`. -/
def getValueD (d : List (String × Int)) (k : String) : Option Int :=
  (d.find? (fun p => p.1 == k)).map (fun p => p.2)

namespace InterpTS

/-- The two dictionaries `stackPositions` / `indexPositions` that
`interpretObject` builds from the stacks (src/Interpreter.ts lines
281-286): each object id maps to its stack index and to its row in the
stack. -/
def buildPositions (sts : List (List String)) : List (String × Int) × List (String × Int) :=
  (sts.enum).foldl
    (fun acc si =>
      (si.2.enum).foldl
        (fun acc2 ij => (setValueD acc2.1 ij.2 (si.1 : Int), setValueD acc2.2 ij.2 (ij.1 : Int)))
        acc)
    ([], [])

/-- Query-side size test from `interpretObject`:
`(x.size && x.size == y.size) || (!x.size)`. -/
def sizeMatch (s : Option String) (y : SimpleObject) : Bool :=
  match s with
  | none => true
  | some v => y.size == some v

/-- Query-side color test from `interpretObject`:
`(x.color && x.color == y.color) || (!x.color)`. -/
def colorMatch (c : Option String) (y : SimpleObject) : Bool :=
  match c with
  | none => true
  | some v => y.color == some v

/-- One iteration of the inner `location.entity.object.forEach` loop of
the RelativeObject branch of `interpretObject` (src/Interpreter.ts lines
293-353), threading the mutable `result` list and `isValid` flag.  The
thrown message is literally `$(location.relation)`: the source wrote the
template in single quotes, so JavaScript performs no interpolation. -/
def relativeInner (w : WorldState) (relation quant : String)
    (stackPositions indexPositions : List (String × Int))
    (stackPosKey indexPosKey : Option Int) (key : String)
    (acc : List String × Bool) (locationKey : String) :
    Except String (List String × Bool) :=
  if (validate w relation key locationKey).isSome then pure acc
  else
    let stackPosLocation :=
      if locationKey != "floor" then getValueD stackPositions locationKey else stackPosKey
    let indexPosLocation :=
      if locationKey != "floor" then getValueD indexPositions locationKey else some (-1)
    match stackPosKey, stackPosLocation, indexPosKey, indexPosLocation with
    | some spk, some spl, some ipk, some ipl =>
      if relation == "ontop" || relation == "inside" then
        if spk == spl && ipl + 1 == ipk then
          if (quant == "any" || quant == "the") && !(acc.1.contains key) then
            pure (acc.1 ++ [key], acc.2)
          else if quant == "all" then
            .error "Things can only be $(location.relation) exactly one object"
          else pure acc
        else pure acc
      else if relation == "leftof" then
        if spk < spl then
          if (quant == "any" || quant == "the") && !(acc.1.contains key) then
            pure (acc.1 ++ [key], acc.2)
          else pure acc
        else pure (acc.1, false)
      else if relation == "rightof" then
        if spk > spl then
          if (quant == "any" || quant == "the") && !(acc.1.contains key) then
            pure (acc.1 ++ [key], acc.2)
          else pure acc
        else pure (acc.1, false)
      else if relation == "under" then
        if spk == spl && ipk < ipl then
          if (quant == "any" || quant == "the") && !(acc.1.contains key) then
            pure (acc.1 ++ [key], acc.2)
          else pure acc
        else pure (acc.1, false)
      else if relation == "above" then
        if spk == spl && ipk > ipl then
          if (quant == "any" || quant == "the") && !(acc.1.contains key) then
            pure (acc.1 ++ [key], acc.2)
          else pure acc
        else pure (acc.1, false)
      else if relation == "beside" then
        if spk == spl - 1 || spk == spl + 1 then
          if (quant == "any" || quant == "the") && !(acc.1.contains key) then
            pure (acc.1 ++ [key], acc.2)
          else pure acc
        else pure (acc.1, false)
      else pure acc
    | _, _, _, _ => pure acc

mutual

/-- `Interpreter.interpretObject` from src/Interpreter.ts (lines 239-365):
SimpleObject descriptions are matched against the whole catalogue
`world.objects` (the source never checks that a matching id is on the
stacks or in the arm); RelativeObject descriptions filter the recursive
result by position; a ComplexObject falls through both `instanceof` tests
and leaves `result` empty, so it reaches the final empty-result throw. -/
def interpretObject (w : WorldState) : ObjectDesc → Except String (List String)
  | .simple form size color =>
    let result := w.objects.filterMap (fun kv =>
      if form == "anyform" && sizeMatch size kv.2 && colorMatch color kv.2 then some kv.1
      else if form == kv.2.form && sizeMatch size kv.2 && colorMatch color kv.2 then some kv.1
      else none)
    let result := if form == "floor" then result ++ ["floor"] else result
    if result.length == 0 then .error "Couldn't find any matching object" else pure result
  | .relative object location => do
    let positions := buildPositions w.stacks
    let objects ← interpretObject w object
    let lsem ← interpretLocation w location
    let result ← objects.foldlM (fun result key => do
      let stackPosKey := getValueD positions.1 key
      let indexPosKey := getValueD positions.2 key
      let inner ← lsem.2.2.foldlM
        (relativeInner w lsem.1 lsem.2.1 positions.1 positions.2 stackPosKey indexPosKey key)
        (result, true)
      if lsem.2.1 == "all" && inner.2 then pure (inner.1 ++ [key]) else pure inner.1) []
    if result.length == 0 then .error "Couldn't find any matching object" else pure result
  | .complex _ _ _ => .error "Couldn't find any matching object"

/-- `Interpreter.interpretEntity`: the pair (quantifier, resolved ids). -/
def interpretEntity (w : WorldState) : EntityDesc → Except String (String × List String)
  | .mk quantifier object => do
    let obj ← interpretObject w object
    pure (quantifier, obj)

/-- `Interpreter.interpretLocation`: the pair (relation, entity
semantics). -/
def interpretLocation (w : WorldState) : LocationDesc → Except String (String × String × List String)
  | .mk relation entity => do
    let ent ← interpretEntity w entity
    pure (relation, ent)

end

/-- `Interpreter.interpretCommand` from src/Interpreter.ts (lines 76-107).
For a MoveCommand the location is interpreted before the entity, as in the
source, so the location's error wins when both would throw. -/
def interpretCommand (w : WorldState) : Command → Except String DNFFormula
  | .move entity location => do
    let loc ← interpretLocation w location
    let entA ← interpretEntity w entity
    handleQuantifiers w entA.2 loc.2.2 entA.1 loc.2.1 loc.1
  | .drop location => do
    let loc ← interpretLocation w location
    match w.holding with
    | none => .error "I'm not holding anything"
    | some h => handleQuantifiers w [h] loc.2.2 "any" loc.2.1 loc.1
  | .take entity => do
    let ent ← interpretEntity w entity
    if ent.2.length == 0 then .error "Couldn't find any matching object"
    else if ent.2.contains "floor" then .error "I cannot take the floor"
    else if ent.2.length != 1 && ent.1 == "the" then .error "Found too many matching objects"
    else if ent.2.length != 1 && ent.1 == "all" then .error "I cannot take more than one object"
    else .ok ⟨ent.2.map (fun x => ⟨[⟨"holding", [x], true⟩]⟩)⟩

/-- The top-level `interpret` from src/Interpreter.ts (lines 40-59): run
`interpretCommand` on every parse, collect the successes (each parse
augmented with its DNF) and the error messages in parse order, and throw
the messages joined with `" ; "` only when no parse succeeded.  The
`errors` accumulator is a plain array: nothing deduplicates it. -/
def interpret (parses : List Command) (w : WorldState) : Except String (List (Command × DNFFormula)) :=
  let acc := parses.foldl
    (fun (acc : List String × List (Command × DNFFormula)) p =>
      match interpretCommand w p with
      | .error e => (acc.1 ++ [e], acc.2)
      | .ok dnf => (acc.1, acc.2 ++ [(p, dnf)]))
    ([], [])
  if acc.2.length == 0 then .error (String.intercalate " ; " acc.1) else .ok acc.2

end InterpTS

namespace InterpP0

/-- The local `coordinate` helper of `interpretRelativeObject` from
src/unnamed/part_000 (lines 288-294), with its running stack index made
explicit: the first stack containing the object wins, and an object on no
stack (the floor included) gets `(-1, -1)`. -/
def coordinateAux : List (List String) → String → Nat → Int × Int
  | [], _, _ => (-1, -1)
  | st :: rest, obj, i =>
    match indexOfFirst st obj with
    | some j => ((i : Int), (j : Int))
    | none => coordinateAux rest obj (i + 1)

/-- `coordinate(obj)` over the given stacks. -/
def coordinate (sts : List (List String)) (obj : String) : Int × Int :=
  coordinateAux sts obj 0

/-- `checkRelation` from src/unnamed/part_000 (lines 296-311): decide the
positional formula rel(a,b) from the two coordinates.  Note that the floor
is given coordinates `(-1,-1)` by `coordinate` and gets no special case
here: with `b = "floor"` the `coorA.x == coorB.x` test fails for every
stacked `a`, so only the different-stack relations can fire. -/
def checkRelation (sts : List (List String)) (rel a b : String) : Bool :=
  let coorA := coordinate sts a
  let coorB := coordinate sts b
  if coorA.1 == coorB.1 then
    (rel == "ontop" && coorA.2 == coorB.2 + 1) ||
    (rel == "inside" && coorA.2 == coorB.2 + 1) ||
    (rel == "above" && coorA.2 > coorB.2) ||
    (rel == "under" && coorA.2 < coorB.2)
  else
    (rel == "beside" && (coorA.1 - coorB.1).natAbs == 1) ||
    (rel == "leftof" && coorA.1 < coorB.1) ||
    (rel == "rightof" && coorA.1 > coorB.1)

/-- `Interpreter.interpretSimpleObject` from src/unnamed/part_000 (lines
247-272): form `floor` resolves to `{"floor"}`; otherwise a catalogue id
matches only if it is present in the stacks or held
(`all_objects.indexOf(id) < 0` skips it) and its description satisfies
`isMatched`. -/
def interpretSimpleObject (w : WorldState) (form : String) (size color : Option String) :
    List String :=
  let all_objects := w.stacks.flatten ++ (match w.holding with | some h => [h] | none => [])
  if form == "floor" then ["floor"]
  else
    w.objects.filterMap (fun kv =>
      if !(all_objects.contains kv.1) then none
      else if (form == "anyform" || form == kv.2.form)
          && (size == none || size == kv.2.size)
          && (color == none || color == kv.2.color) then some kv.1
      else none)

end InterpP0

/-- A world whose catalogue lists a ball that sits on no stack and is not
held: only the table is actually in the world. -/
def wGhostBall : WorldState :=
  { «stacks» := [["TheTable"]]
    holding := none
    arm := 0
    objects := [("GhostBall", ⟨"ball", some "small", some "white"⟩),
                ("TheTable", ⟨"table", some "large", some "blue"⟩)] }

/-- A JavaScript number as the planner uses them: an integer, or one of
the two infinities that `Math.min()` / `Math.max()` of an empty spread
produce. -/
inductive JSNum where
  | negInf
  | fin (n : Int)
  | posInf
deriving DecidableEq, Repr

/-- `<` on JavaScript numbers (no NaN arises in the planner). -/
def JSNum.blt : JSNum → JSNum → Bool
  | .negInf, .negInf => false
  | .negInf, _ => true
  | .fin _, .negInf => false
  | .fin a, .fin b => a < b
  | .fin _, .posInf => true
  | .posInf, _ => false

/-- Binary `Math.min`. -/
def JSNum.min (a b : JSNum) : JSNum :=
  if JSNum.blt b a then b else a

/-- Adding a finite number to a JavaScript number
(`totalcost + heurcost(child)`; `totalcost` is always finite). -/
def JSNum.addInt : JSNum → Int → JSNum
  | .negInf, _ => .negInf
  | .fin n, m => .fin (n + m)
  | .posInf, _ => .posInf

/-- `Math.min(...l)`: `Infinity` on the empty spread. -/
def minE (l : List JSNum) : JSNum :=
  l.foldl JSNum.min .posInf

/-- `Math.max(...l)` over finite values: `-Infinity` on the empty
spread. -/
def maxE (l : List Int) : JSNum :=
  match l with
  | [] => .negInf
  | x :: xs => .fin (xs.foldl max x)

/-- `Math.abs` on integers. -/
def absInt (i : Int) : Int :=
  (i.natAbs : Int)

namespace Planner

/-- The stack-scanning loop of the planner's `coordinate`
(src/unnamed/part_001 lines 369-376), with the running index explicit. -/
def coordinateAux : List (List String) → String → Nat → Option (Int × Int)
  | [], _, _ => none
  | st :: rest, obj, i =>
    match indexOfFirst st obj with
    | some j => some ((i : Int), (j : Int))
    | none => coordinateAux rest obj (i + 1)

/-- `coordinate(obj, state)`: `(-1,-1)` for the floor, the `(col,row)` of
the first stack containing the object, or `none` (`null`) when the object
is not on the stacks (for instance when it is held). -/
def coordinate (obj : String) (s : WorldState) : Option (Int × Int) :=
  if obj == "floor" then some (-1, -1) else coordinateAux s.stacks obj 0

/-- `state.stacks[x]` for a coordinate column.  The source indexes the
array directly; column `-1` (the floor) is only ever indexed in branches
that interpreter-produced literals cannot reach, and we totalize it to the
empty stack. -/
def stackAt (s : WorldState) (x : Int) : List String :=
  if x < 0 then [] else s.stacks.getD x.toNat []

/-- `state.stacks[coor.x].length - coor.y - 1`: the number of objects on
top of the object at coordinate `c`. -/
def numOnTop (s : WorldState) (c : Int × Int) : Int :=
  ((stackAt s c.1).length : Int) - c.2 - 1

/-- `isValidDrop` from src/unnamed/part_001 (lines 345-364): may the held
object be dropped onto the given top object (the floor allows
anything)? -/
def isValidDrop (objA objB : SimpleObject) : Bool :=
  if objB.form == "floor" then true
  else if objB.form == "ball" then false
  else if objA.form == "ball" && objB.form != "box" then false
  else if memberOf objA.form ["pyramid", "plank", "box"] && objB.form == "box"
      && objA.size == objB.size then false
  else if objA.size == some "large" && objB.size == some "small" then false
  else if objA.form == "box" && memberOf objB.form ["pyramid", "brick"] then
    if objA.size == some "small" && objB.size == some "small" then false
    else if objA.size == some "large" && objB.size == some "large"
        && objB.form == "pyramid" then false
    else true
  else true

/-- `isValidUnaryRelation` from src/unnamed/part_001 (lines 379-382):
`holding(a)` holds when the arm holds `a`.  (Callers guarantee one
argument, so the `getD` default is never consulted.) -/
def isValidUnaryRelation (lit : Literal) (s : WorldState) : Bool :=
  lit.relation == "holding" && s.holding == some (lit.args.getD 0 "")

/-- `isValidBinaryRelation` from src/unnamed/part_001 (lines 385-404):
decide a binary positional literal against the stacks.  The same-stack
branch is taken when `args[1]` is the floor (whose coordinates are
`(-1,-1)`, so `ontop`/`inside` reduce to row 0 and `above` to any row) or
when the columns agree. -/
def isValidBinaryRelation (lit : Literal) (s : WorldState) : Bool :=
  match coordinate (lit.args.getD 0 "") s, coordinate (lit.args.getD 1 "") s with
  | some cA, some cB =>
    if lit.args.getD 1 "" == "floor" || cA.1 == cB.1 then
      (lit.relation == "ontop" && cA.2 == cB.2 + 1) ||
      (lit.relation == "inside" && cA.2 == cB.2 + 1) ||
      (lit.relation == "above" && cA.2 > cB.2) ||
      (lit.relation == "under" && cA.2 < cB.2)
    else
      (lit.relation == "beside" && absInt (cA.1 - cB.1) == 1) ||
      (lit.relation == "leftof" && cA.1 < cB.1) ||
      (lit.relation == "rightof" && cA.1 > cB.1)
  | _, _ => false

/-- A Shrdlite search node (src/unnamed/part_001 lines 411-423): the world
state together with its canonical id string. -/
structure ShrdliteNode where
  id : String
  state : WorldState
deriving DecidableEq, Repr

/-- The canonical id `"<arm>,<holding>,[[s0],[s1],...]"`; a `null`
`holding` prints as the string `null`, as the template literal does. -/
def nodeId (s : WorldState) : String :=
  let stringifiedStacks := s.stacks.map (fun stack => "[" ++ String.intercalate "," stack ++ "]")
  toString s.arm ++ "," ++ (match s.holding with | some h => h | none => "null")
    ++ ",[" ++ String.intercalate "," stringifiedStacks ++ "]"

/-- Build a `ShrdliteNode` from a state (the constructor computes the
id). -/
def mkNode (s : WorldState) : ShrdliteNode :=
  ⟨nodeId s, s⟩

/-- `ShrdliteNode.neighbor` from src/unnamed/part_001 (lines 426-450), on
the underlying state: the successor world after one arm action, or `none`
when the action does not apply.  `deepclone` of the source becomes pure
record update.  The arm index is a `Nat`; the source's `--next.arm < 0`
test becomes the guard `arm == 0`. -/
def neighborState (s : WorldState) (action : String) : Option WorldState :=
  let xpos := s.arm
  let stack := s.stacks.getD xpos []
  if action == "l" then
    if s.arm == 0 then none
    else some ⟨s.stacks, s.holding, s.arm - 1, s.objects⟩
  else if action == "r" then
    if s.arm + 1 ≥ s.stacks.length then none
    else some ⟨s.stacks, s.holding, s.arm + 1, s.objects⟩
  else if action == "p" then
    if s.holding.isSome || stack.length == 0 then none
    else some ⟨s.stacks.set xpos stack.dropLast, some (stack.getLastD ""), s.arm, s.objects⟩
  else if action == "d" then
    match s.holding with
    | none => none
    | some h =>
      let floor : SimpleObject := ⟨"floor", none, none⟩
      let objA := getObj s h
      let objB := if stack.length == 0 then floor else getObj s (stack.getLastD "")
      if !(isValidDrop objA objB) then none
      else some ⟨s.stacks.set xpos (stack ++ [h]), none, s.arm, s.objects⟩
  else none

/-- A `Successor` edge from Graph.ts: action character, child node, and
cost (always 1 for the Shrdlite graph). -/
structure Successor where
  action : String
  child : ShrdliteNode
  cost : Int
deriving DecidableEq, Repr

/-- `ShrdliteGraph.successors` from src/unnamed/part_001 (lines 458-465):
try the four actions in order and keep the ones that apply, each with
cost 1. -/
def successors (current : ShrdliteNode) : List Successor :=
  ["l", "r", "p", "d"].filterMap (fun action =>
    (neighborState current.state action).map (fun st => ⟨action, mkNode st, 1⟩))

/-- `isTrueLit` inside `goalTest` (src/unnamed/part_001 lines 484-490):
dispatch on the number of arguments. -/
def isTrueLit (lit : Literal) (s : WorldState) : Bool :=
  if lit.args.length == 1 then isValidUnaryRelation lit s
  else if lit.args.length == 2 then isValidBinaryRelation lit s
  else false

/-- `isTrueConj`: every literal of the conjunction holds. -/
def isTrueConj (conj : Conjunction) (s : WorldState) : Bool :=
  conj.literals.all (fun lit => isTrueLit lit s)

/-- `goalTest(intp)` from src/unnamed/part_001 (lines 473-491): some
conjunction of the DNF holds in the node's state. -/
def goalTest (intp : DNFFormula) (node : ShrdliteNode) : Bool :=
  intp.conjuncts.any (fun conj => isTrueConj conj node.state)

/-- `h_holding` (src/unnamed/part_001 lines 521-527). -/
def h_holding (lit : Literal) (s : WorldState) : Int :=
  match coordinate (lit.args.getD 0 "") s with
  | some coor => 4 * numOnTop s coor + absInt ((s.arm : Int) - coor.1) + 1
  | none => 0

/-- `h_left` (lines 529-545). -/
def h_left (lit : Literal) (s : WorldState) : Int :=
  match coordinate (lit.args.getD 0 "") s, coordinate (lit.args.getD 1 "") s with
  | some cA, some cB =>
    let dAB := absInt (cA.1 - cB.1)
    let dR := min (absInt ((s.arm : Int) - cA.1)) (absInt ((s.arm : Int) - cB.1))
    let nA := numOnTop s cA
    let nB := numOnTop s cB
    4 * min nA nB + dR + dAB + 3
  | some cA, none =>
    let dRA := (s.arm : Int) - cA.1
    if dRA > 0 then 1 else -dRA + 2
  | none, some cB =>
    let dRB := (s.arm : Int) - cB.1
    if dRB < 0 then 1 else dRB + 2
  | none, none => 0

/-- `h_right` (lines 546-562). -/
def h_right (lit : Literal) (s : WorldState) : Int :=
  match coordinate (lit.args.getD 0 "") s, coordinate (lit.args.getD 1 "") s with
  | some cA, some cB =>
    let dAB := absInt (cA.1 - cB.1)
    let dR := min (absInt ((s.arm : Int) - cA.1)) (absInt ((s.arm : Int) - cB.1))
    let nA := numOnTop s cA
    let nB := numOnTop s cB
    4 * min nA nB + dR + dAB + 3
  | some cA, none =>
    let dRA := (s.arm : Int) - cA.1
    if dRA < 0 then 1 else dRA + 2
  | none, some cB =>
    let dRB := (s.arm : Int) - cB.1
    if dRB > 0 then 1 else -dRB + 2
  | none, none => 0

/-- `h_beside` (lines 563-578). -/
def h_beside (lit : Literal) (s : WorldState) : Int :=
  match coordinate (lit.args.getD 0 "") s, coordinate (lit.args.getD 1 "") s with
  | some cA, some cB =>
    let dAB := absInt (cA.1 - cB.1)
    let dR := min (absInt ((s.arm : Int) - cA.1)) (absInt ((s.arm : Int) - cB.1))
    let nA := numOnTop s cA
    let nB := numOnTop s cB
    if cA.1 == cB.1 then 4 * min nA nB + dR + 3
    else 4 * min nA nB + dR + dAB + 1
  | some cA, none => absInt ((s.arm : Int) - cA.1)
  | none, some cB => absInt ((s.arm : Int) - cB.1)
  | none, none => 0

/-- `h_inside` (lines 579-596). -/
def h_inside (lit : Literal) (s : WorldState) : Int :=
  match coordinate (lit.args.getD 0 "") s, coordinate (lit.args.getD 1 "") s with
  | some cA, some cB =>
    let dAB := absInt (cA.1 - cB.1)
    let dR := min (absInt ((s.arm : Int) - cA.1)) (absInt ((s.arm : Int) - cB.1))
    let nA := numOnTop s cA
    let nB := numOnTop s cB
    if cA.1 == cB.1 then 4 * max nA nB + dR + 3
    else 4 * (nA + nB) + dR + dAB + 2
  | some cA, none =>
    let nA := numOnTop s cA
    4 * nA + absInt ((s.arm : Int) - cA.1) + 4
  | none, some cB =>
    let nB := numOnTop s cB
    4 * nB + absInt ((s.arm : Int) - cB.1) + 1
  | none, none => 0

/-- `h_ontop` (lines 597-617). -/
def h_ontop (lit : Literal) (s : WorldState) : Int :=
  match coordinate (lit.args.getD 0 "") s, coordinate (lit.args.getD 1 "") s with
  | some cA, some cB =>
    let dAB := absInt (cA.1 - cB.1)
    let dR := min (absInt ((s.arm : Int) - cA.1)) (absInt ((s.arm : Int) - cB.1))
    let nA := numOnTop s cA
    if lit.args.getD 1 "" == "floor" then 4 * nA + absInt ((s.arm : Int) - cA.1) + 3
    else
      let nB := numOnTop s cB
      if cA.1 == cB.1 then 4 * max nA nB + dR + 3
      else 4 * (nA + nB) + dR + dAB + 2
  | some cA, none =>
    let nA := numOnTop s cA
    4 * nA + absInt ((s.arm : Int) - cA.1) + 4
  | none, some cB =>
    if lit.args.getD 1 "" == "floor" then 1
    else
      let nB := numOnTop s cB
      4 * nB + absInt ((s.arm : Int) - cB.1) + 1
  | none, none => 0

/-- `h_above` (lines 618-634). -/
def h_above (lit : Literal) (s : WorldState) : Int :=
  match coordinate (lit.args.getD 0 "") s, coordinate (lit.args.getD 1 "") s with
  | some cA, some cB =>
    let dAB := absInt (cA.1 - cB.1)
    let dRA := absInt ((s.arm : Int) - cA.1)
    let nA := numOnTop s cA
    if lit.args.getD 1 "" == "floor" then 0
    else 4 * nA + dAB + dRA + 3
  | some cA, none =>
    let nA := numOnTop s cA
    4 * nA + absInt ((s.arm : Int) - cA.1) + 4
  | none, some cB =>
    if lit.args.getD 1 "" == "floor" then 1
    else absInt ((s.arm : Int) - cB.1) + 1
  | none, none => 0

/-- `h_under` (lines 635-649). -/
def h_under (lit : Literal) (s : WorldState) : Int :=
  match coordinate (lit.args.getD 0 "") s, coordinate (lit.args.getD 1 "") s with
  | some cA, some cB =>
    let dAB := absInt (cA.1 - cB.1)
    let dRB := absInt ((s.arm : Int) - cB.1)
    let nB := numOnTop s cB
    4 * nB + dAB + dRB + 3
  | some cA, none => absInt ((s.arm : Int) - cA.1) + 1
  | none, some cB =>
    let nB := numOnTop s cB
    4 * nB + absInt ((s.arm : Int) - cB.1) + 4
  | none, none => 0

/-- `heurForLit` (src/unnamed/part_001 lines 503-515): a `holding` literal
goes to `h_holding`; a binary literal that already holds costs 0; the rest
dispatch on the relation name. -/
def heurForLit (lit : Literal) (s : WorldState) : Int :=
  if lit.relation == "holding" then h_holding lit s
  else if isValidBinaryRelation lit s then 0
  else if lit.relation == "leftof" then h_left lit s
  else if lit.relation == "rightof" then h_right lit s
  else if lit.relation == "beside" then h_beside lit s
  else if lit.relation == "inside" then h_inside lit s
  else if lit.relation == "ontop" then h_ontop lit s
  else if lit.relation == "above" then h_above lit s
  else if lit.relation == "under" then h_under lit s
  else 0

/-- `heurForConj`: `Math.max` over the literal costs (`-Infinity` on an
empty conjunction, exactly as the empty spread behaves). -/
def heurForConj (conj : Conjunction) (s : WorldState) : JSNum :=
  maxE (conj.literals.map (fun lit => heurForLit lit s))

/-- `heuristics(intp)` from src/unnamed/part_001 (lines 494-515):
`Math.min` over the per-conjunction costs. -/
def heuristics (intp : DNFFormula) (node : ShrdliteNode) : JSNum :=
  minE (intp.conjuncts.map (fun conj => heurForConj conj node.state))

/-- `SearchNode` from src/AStarSearch.ts (lines 138-146): the search tree
node used by `aStarSearch`.  The source stores `parent` and `edge` as two
independently optional fields, but only ever constructs the two shapes
below (both `undefined` for the start, both present for every child), so
they are the constructors. -/
inductive SearchNode where
  | start (totalcost : Int) (astarcost : JSNum)
  | child (parent : SearchNode) (edge : Successor) (totalcost : Int) (astarcost : JSNum)
deriving Repr

/-- `searchnode.totalcost`. -/
def SearchNode.totalcost : SearchNode → Int
  | .start tc _ => tc
  | .child _ _ tc _ => tc

/-- `searchnode.astarcost`. -/
def SearchNode.astarcost : SearchNode → JSNum
  | .start _ ac => ac
  | .child _ _ _ ac => ac

/-- The `path` function of `aStarSearch` (src/AStarSearch.ts lines
156-164): walk the parent chain collecting edges and reverse. -/
def SearchNode.path : SearchNode → List Successor
  | .start _ _ => []
  | .child parent edge _ _ => parent.path ++ [edge]

/-- `(searchnode.edge)? searchnode.edge.child : start`: the graph node a
search node stands for. -/
def SearchNode.graphnode (startNode : ShrdliteNode) : SearchNode → ShrdliteNode
  | .start _ _ => startNode
  | .child _ edge _ _ => edge.child

/-- `SearchResult` from Graph.ts: status string, path, cost and the
visited-statistics counter (`astarTable.size()` in this A*). -/
structure SearchResult where
  status : String
  path : List Successor
  cost : Int
  visited : Nat
deriving Repr

/-- Scan for the minimum: keep the current best and the passed-over
elements. -/
def dequeueMinAux (best : SearchNode) (acc : List SearchNode) :
    List SearchNode → SearchNode × List SearchNode
  | [] => (best, acc.reverse)
  | y :: ys =>
    if JSNum.blt y.astarcost best.astarcost then dequeueMinAux y (best :: acc) ys
    else dequeueMinAux best (y :: acc) ys

/-- `frontier.dequeue()` of the priority queue: remove an element of
minimal `astarcost` (the comparator of src/AStarSearch.ts lines 149-153
makes the queue's maximum the lowest cost); the empty queue gives
`undefined`.  The binary-heap tie order of the external
typescript-collections library is unspecified; we take the first minimal
element. -/
def dequeueMin (l : List SearchNode) : Option (SearchNode × List SearchNode) :=
  match l with
  | [] => none
  | x :: xs => some (dequeueMinAux x [] xs)

/-- The `astarTable` of src/AStarSearch.ts: node id (the dictionary keys a
`ShrdliteNode` by its `toString`, the canonical id) to the lowest
`astarcost` enqueued. -/
def setValueA (d : List (String × JSNum)) (k : String) (v : JSNum) : List (String × JSNum) :=
  if d.any (fun p => p.1 == k) then d.map (fun p => if p.1 == k then (k, v) else p)
  else d ++ [(k, v)]

/-- `astarTable.getValue`. -/
def getValueA (d : List (String × JSNum)) (k : String) : Option JSNum :=
  (d.find? (fun p => p.1 == k)).map (fun p => p.2)

/-- The successor-expansion loop of `aStarSearch` (src/AStarSearch.ts
lines 194-204): for each successor, enqueue a child search node unless the
table already holds a no-worse `astarcost`.  The `!oldcost` test of the
source also treats a recorded cost of `0` as absent (JavaScript
falsiness), hence the `c == .fin 0` disjunct.  `heurcost` memoizes a pure
function, so it is semantically just `heur`. -/
def expandStep (heur : ShrdliteNode → JSNum) (sn : SearchNode)
    (acc : List SearchNode × List (String × JSNum)) (next : Successor) :
    List SearchNode × List (String × JSNum) :=
  let oldcost := getValueA acc.2 next.child.id
  let totalcost := sn.totalcost + next.cost
  let astarcost := (heur next.child).addInt totalcost
  let readd : Bool :=
    match oldcost with
    | none => true
    | some c => c == .fin 0 || JSNum.blt astarcost c
  if readd then
    (acc.1 ++ [SearchNode.child sn next totalcost astarcost],
     setValueA acc.2 next.child.id astarcost)
  else acc

/-- The whole expansion loop: fold the per-successor step over the
successor list. -/
def expand (heur : ShrdliteNode → JSNum) (sn : SearchNode) (succs : List Successor)
    (frontier : List SearchNode) (table : List (String × JSNum)) :
    List SearchNode × List (String × JSNum) :=
  succs.foldl (expandStep heur sn) (frontier, table)

/-- The main loop of `aStarSearch` (src/AStarSearch.ts lines 183-206),
specialised to the Shrdlite graph (`graph.successors` is `successors`).
Each iteration of the source's `while(Date.now() < endTime)` consumes one
unit of fuel; exhausted fuel is the timeout. -/
def astarLoop (goal : ShrdliteNode → Bool) (heur : ShrdliteNode → JSNum)
    (startNode : ShrdliteNode) :
    Nat → List SearchNode → List (String × JSNum) → SearchResult
  | 0, _, table => ⟨"timeout", [], -1, table.length⟩
  | fuel + 1, frontier, table =>
    match dequeueMin frontier with
    | none => ⟨"failure", [], -1, table.length⟩
    | some (sn, rest) =>
      let graphnode := sn.graphnode startNode
      if goal graphnode then ⟨"success", sn.path, sn.totalcost, table.length⟩
      else
        let next := expand heur sn (successors graphnode) rest table
        astarLoop goal heur startNode fuel next.1 next.2

/-- `aStarSearch` from src/AStarSearch.ts (lines 129-207), specialised to
`ShrdliteNode` (the planner's only instantiation): seed the frontier with
the start search node at `totalcost` 0 and `astarcost = heurcost(start)`,
record the start in `astarTable`, and run the loop. -/
def aStarSearch (goal : ShrdliteNode → Bool) (heur : ShrdliteNode → JSNum)
    (startNode : ShrdliteNode) (fuel : Nat) : SearchResult :=
  astarLoop goal heur startNode fuel
    [SearchNode.start 0 (heur startNode)]
    [(startNode.id, heur startNode)]

/-- `makePlan` from src/unnamed/part_001 (lines 313-322): run the search
with `goalTest` and `heuristics` for the interpretation, throw on timeout
or failure, and return the action characters of the path. -/
def makePlan (intp : DNFFormula) (w : WorldState) (fuel : Nat) : Except String (List String) :=
  let result := aStarSearch (goalTest intp) (heuristics intp) (mkNode w) fuel
  if result.status == "timeout" then
    .error ("TIMEOUT! Visited " ++ toString result.visited ++ " nodes")
  else if result.status == "failure" then
    .error "No path exists from start to goal"
  else .ok (result.path.map (fun e => e.action))

/-- Execute an action string step by step with the state graph's own
transition function. -/
def execActions (s : WorldState) : List String → Option WorldState
  | [] => some s
  | a :: rest =>
    match neighborState s a with
    | none => none
    | some s2 => execActions s2 rest

end Planner

namespace InterpTS

/-- The error message a parse contributes to the top-level `interpret`
accumulator, if any. -/
def errOf (w : WorldState) (p : Command) : Option String :=
  match interpretCommand w p with
  | .error e => some e
  | .ok _ => none

/-- The augmented result a parse contributes to the top-level `interpret`
accumulator, if any. -/
def okOf (w : WorldState) (p : Command) : Option (Command × DNFFormula) :=
  match interpretCommand w p with
  | .ok dnf => some (p, dnf)
  | .error _ => none

end InterpTS

/-- The multiset of active object ids of a snapshot, as a list: the held
object (if any) followed by the stacks' contents. -/
def idsList (s : WorldState) : List String :=
  (match s.holding with | some h => [h] | none => []) ++ s.stacks.flatten

/-- The world-snapshot invariant of the data model: the arm is a valid
column and no active id occurs twice (which subsumes "the held object
appears in no stack"). -/
def WFState (s : WorldState) : Prop :=
  s.arm < s.stacks.length ∧ (idsList s).Nodup

namespace Planner

/-- The search nodes `aStarSearch` can ever hold in its frontier when
started from `startNode`: the seed node, and children built from a held
node by one of its graph successors with the accumulated cost. -/
inductive ValidSN (startNode : ShrdliteNode) : SearchNode → Prop where
  | start : ∀ ac, ValidSN startNode (.start 0 ac)
  | child : ∀ p e ac, ValidSN startNode p → e ∈ successors (p.graphnode startNode) →
      ValidSN startNode (.child p e (p.totalcost + e.cost) ac)

end Planner

/-- A one-object world for the concrete planner run: a single ball on a
single stack. -/
def wBall1 : WorldState :=
  { «stacks» := [["b1"]]
    holding := none
    arm := 0
    objects := [("b1", ⟨"ball", some "large", some "white"⟩)] }

/-- The world after picking up the ball of `wBall1`. -/
def wBall1p : WorldState :=
  { «stacks» := [[]]
    holding := some "b1"
    arm := 0
    objects := [("b1", ⟨"ball", some "large", some "white"⟩)] }

/-- The goal `holding(b1)` as a DNF. -/
def dnfHold : DNFFormula :=
  ⟨[⟨[⟨"holding", ["b1"], true⟩]⟩]⟩

/-- The world after the pick action in `wTwoBalls`. -/
def wTwoBallsAfterP : WorldState :=
  { «stacks» := [[], ["SmallBlackBall"]]
    holding := some "LargeWhiteBall"
    arm := 0
    objects := [("LargeWhiteBall", ⟨"ball", some "large", some "white"⟩),
                ("SmallBlackBall", ⟨"ball", some "small", some "black"⟩)] }

/-- C1: the source raises "Only 1 thing can be ontop another object" for
`put all balls on the floor` (subject set the two balls, quantifier `all`,
relation `ontop`, destination `[floor]`) even though the destination is
the floor: the `quanA == "all"` pre-check of `handleQuantifiers` has no
`objectsB[0] != "floor"` guard, so no conjunction is produced where the
claim (and the repo's own test case for this utterance) expects
`ontop(LargeWhiteBall,floor) ∧ ontop(SmallBlackBall,floor)`. -/
theorem C1_all_on_floor_throws :
    InterpTS.handleQuantifiers wTwoBalls ["LargeWhiteBall", "SmallBlackBall"] ["floor"]
      "all" "the" "ontop" = .error "Only 1 thing can be ontop another object"
    ∧ ["floor"].headD "" = "floor" := by
  exact ⟨rfl, rfl⟩

/-- C2 counterexample: with `A = [LargeBrick, LargePyramid]`, `qA = all`,
`B = [LargeBrick]`, `qB = any`, `R = beside`, the pair
`(LargeBrick, LargeBrick)` violates physics, yet the conjunction covering
`A × {LargeBrick}` is not dropped: it is emitted with just the offending
literal omitted, contradicting the claim. -/
theorem C2_conjunction_not_dropped :
    InterpTS.handleQuantifiers wBrickPyramid ["LargeBrick", "LargePyramid"] ["LargeBrick"]
      "all" "any" "beside"
      = .ok ⟨[⟨[⟨"beside", ["LargePyramid", "LargeBrick"], true⟩]⟩]⟩
    ∧ (InterpTS.validate wBrickPyramid "beside" "LargeBrick" "LargeBrick").isSome = true := by
  exact ⟨rfl, rfl⟩

/-- C3: the unstable-stacking rule fires outside its stated guard.  For a
large brick related by `above` to a large pyramid (so `a.form ≠ box` and
`relation ≠ ontop`), both drafts of `validate` still return the "large box
cannot be ontop a large pyramid" violation: the braceless `if` of the
source leaves the large/large/pyramid test at top level. -/
theorem C3_dangling_guard_fires :
    InterpTS.validate wBrickPyramid "above" "LargeBrick" "LargePyramid"
      = some "A large box cannot be ontop a large pyramid"
    ∧ InterpP0.validate wBrickPyramid "LargeBrick" "LargePyramid" "above"
      = some "A large box cannot be ontop a large pyramid" := by
  exact ⟨rfl, rfl⟩

/-- C4: resolving the SimpleObject description "a ball" in a world whose
catalogue lists a ball that is on no stack and not held returns that
absent id from `Interpreter.interpretObject` (src/Interpreter.ts), because
the simple branch matches against the whole catalogue without any
presence check; the draft resolver `interpretSimpleObject`
(src/unnamed/part_000), which the claim describes, correctly returns
nothing. -/
theorem C4_absent_id_returned :
    InterpTS.interpretObject wGhostBall (.simple "ball" none none) = .ok ["GhostBall"]
    ∧ wGhostBall.stacks.flatten.contains "GhostBall" = false
    ∧ wGhostBall.holding = none
    ∧ InterpP0.interpretSimpleObject wGhostBall "ball" none none = [] := by
  exact ⟨rfl, rfl, rfl, rfl⟩

/-- C6: the floor is directly below every stack for the planner's goal
test and for the src/Interpreter.ts resolver, but not for the part_000
draft: with the table at row 0 of stack 0, `isValidBinaryRelation` accepts
`ontop(TheTable, floor)` and the resolver keeps the table for "a table
ontop the floor", while `checkRelation` gives the floor coordinates
`(-1,-1)` and no special case, so it rejects the same literal. -/
theorem C6_floor_row_zero :
    InterpP0.coordinate wGhostBall.stacks "TheTable" = (0, 0)
    ∧ InterpP0.checkRelation wGhostBall.stacks "ontop" "TheTable" "floor" = false
    ∧ Planner.isValidBinaryRelation ⟨"ontop", ["TheTable", "floor"], true⟩ wGhostBall = true
    ∧ InterpTS.interpretObject wGhostBall
        (.relative (.simple "table" none none) (.mk "ontop" (.mk "the" (.simple "floor" none none))))
        = .ok ["TheTable"] := by
  exact ⟨rfl, rfl, rfl, rfl⟩

/-- C7 counterexample: two parses failing with the same message are joined
without deduplication, so the thrown message is the duplicated join, not
the distinct-message join the claim describes. -/
theorem C7_duplicate_messages_joined :
    InterpTS.interpret [.take (.mk "the" (.simple "floor" none none)),
        .take (.mk "the" (.simple "floor" none none))] wGhostBall
      = .error "I cannot take the floor ; I cannot take the floor"
    ∧ "I cannot take the floor ; I cannot take the floor" ≠ "I cannot take the floor" := by
  exact ⟨rfl, by decide⟩

/-- C8 counterexample: in src/Interpreter.ts the same-object rule is
evaluated last, so `validate(ontop, a, a)` on a ball reports the
balls-roll violation, not the same-object violation the claim (spec rule
order, same-object third) prescribes. -/
theorem C8_same_object_not_third :
    InterpTS.validate wTwoBalls "ontop" "LargeWhiteBall" "LargeWhiteBall"
      = some "A ball can only be ontop the floor"
    ∧ some "A ball can only be ontop the floor" ≠ some "Nothing can be ontop itself" := by
  exact ⟨rfl, by decide⟩

/-- C9 counterexample: a DNF with one empty conjunction (reachable from
the interpreter, which emits conjunctions with all offending literals
omitted) makes the goal test vacuously true in every state while the
heuristic evaluates to `-Infinity` (the empty `Math.max` spread), not 0. -/
theorem C9_empty_conjunction_neg_inf :
    Planner.goalTest ⟨[⟨[]⟩]⟩ (Planner.mkNode ⟨[[]], none, 0, []⟩) = true
    ∧ Planner.heuristics ⟨[⟨[]⟩]⟩ (Planner.mkNode ⟨[[]], none, 0, []⟩) = .negInf
    ∧ JSNum.negInf ≠ JSNum.fin 0 := by
  exact ⟨rfl, rfl, by decide⟩

/-- Membership reading of the source's `memberOf`. -/
theorem memberOf_eq_true_iff (needle : String) (l : List String) :
    memberOf needle l = true ↔ needle ∈ l := by
  simp [memberOf]

/-- C8 amended: in the part_000 draft the same-object rule is indeed
third: for every relation and every id naming a non-floor object,
`validate(a, a, rel)` returns the same-object violation (the two floor
rules cannot fire on a non-floor object).  In src/Interpreter.ts the rule
is last instead, see the counterexample. -/
theorem C8_p0_same_object_third (w : WorldState) (rel obj : String)
    (h1 : obj ≠ "floor") (h2 : (getObj w obj).form ≠ "floor") :
    InterpP0.validate w obj obj rel = some ("Nothing can be " ++ rel ++ " itself") := by
  have e1 : (obj == "floor") = false := by
    simp [h1]
  have e2 : ((getObj w obj).form == "floor") = false := by
    simp [h2]
  simp [InterpP0.validate, e1, e2]

/-- C8 witness: the amended theorem applied to the large brick with
relation `under`. -/
theorem C8_p0_same_object_third_witness :
    ("LargeBrick" : String) ≠ "floor"
    ∧ (getObj wBrickPyramid "LargeBrick").form ≠ "floor"
    ∧ InterpP0.validate wBrickPyramid "LargeBrick" "LargeBrick" "under"
        = some "Nothing can be under itself" :=
  ⟨by decide, by decide,
   C8_p0_same_object_third wBrickPyramid "under" "LargeBrick" (by decide) (by decide)⟩

/-- C2 amended: when the subject quantifier is `all`, `handleQuantifiers`
emits conjunctions built from exactly the physics-legal pairs — a pair
that violates physics has its literal omitted (and its violation
recorded), but the conjunction itself is always emitted, never dropped.
With `qB ∈ {any, the}` there is one such conjunction per `b ∈ B`; with
`qB = all` there is a single conjunction over all legal pairs of
`A × B`. -/
theorem C2_all_omits_offending_literals (w : WorldState) (A B : List String) (rel qB : String)
    (hA : A ≠ []) (hB : B ≠ [])
    (hrelA : rel = "ontop" ∨ rel = "inside" → A.length = 1) :
    ((qB = "any" ∨ qB = "the" ∧ B.length = 1) →
      InterpTS.handleQuantifiers w A B "all" qB rel
        = .ok ⟨B.map (fun b => ⟨A.filterMap (fun a =>
            if (InterpTS.validate w rel a b).isSome then none
            else some ⟨rel, [a, b], true⟩)⟩)⟩)
    ∧ ((rel = "ontop" ∨ rel = "inside" → B.length = 1 ∨ B.headD "" = "floor") →
      InterpTS.handleQuantifiers w A B "all" "all" rel
        = .ok ⟨[⟨A.flatMap (fun a => B.filterMap (fun b =>
            if (InterpTS.validate w rel a b).isSome then none
            else some ⟨rel, [a, b], true⟩))⟩]⟩) := by
  have hA0 : ¬ (A.length = 0) := fun h => hA (List.length_eq_zero.mp h)
  have hB0 : ¬ (B.length = 0) := fun h => hB (List.length_eq_zero.mp h)
  have hAgt : memberOf rel ["ontop", "inside"] = true → ¬ (A.length > 1) := by
    intro hm
    have h1 : A.length = 1 := hrelA (by simpa [memberOf_eq_true_iff] using hm)
    omega
  constructor
  · rintro (rfl | ⟨rfl, hB1⟩)
    · by_cases hm : memberOf rel ["ontop", "inside"] = true
      · simp [InterpTS.handleQuantifiers, hA0, hB0, hm, hAgt hm]
      · simp [InterpTS.handleQuantifiers, hA0, hB0, hm]
    · by_cases hm : memberOf rel ["ontop", "inside"] = true
      · simp [InterpTS.handleQuantifiers, hA0, hB0, hm, hAgt hm, hB1]
      · simp [InterpTS.handleQuantifiers, hA0, hB0, hm, hB1]
  · intro hBfl
    by_cases hm : memberOf rel ["ontop", "inside"] = true
    · rcases hBfl (by simpa [memberOf_eq_true_iff] using hm) with hB1 | hfl
      · simp [InterpTS.handleQuantifiers, hA0, hB0, hm, hAgt hm, hB1]
      · have hfl2 : B.head?.getD "" = "floor" := by simpa using hfl
        simp [InterpTS.handleQuantifiers, hA0, hB0, hm, hAgt hm, hfl2]
    · simp [InterpTS.handleQuantifiers, hA0, hB0, hm]

/-- C2 witness: the amended theorem applied to the brick/pyramid world
with `A = [LargeBrick, LargePyramid]`, `B = [LargeBrick]`, `qB = any`,
`R = beside`; the same-object pair's literal is omitted and the remaining
one-literal conjunction is emitted. -/
theorem C2_all_omits_offending_literals_witness :
    (["LargeBrick", "LargePyramid"] : List String) ≠ []
    ∧ InterpTS.handleQuantifiers wBrickPyramid ["LargeBrick", "LargePyramid"] ["LargeBrick"]
        "all" "any" "beside"
      = .ok ⟨[⟨[⟨"beside", ["LargePyramid", "LargeBrick"], true⟩]⟩]⟩ := by
  refine ⟨by decide, ?_⟩
  have h := (C2_all_omits_offending_literals wBrickPyramid ["LargeBrick", "LargePyramid"]
    ["LargeBrick"] "beside" "any" (by decide) (by decide)
    (by rintro (h | h) <;> exact absurd h (by decide))).1 (Or.inl rfl)
  simpa using h

/-- Unrolling of the accumulator loop of the top-level `interpret`: the
errors list collects the failing parses' messages in order, the results
list the successes in order. -/
theorem interpret_foldl_spec (w : WorldState) (parses : List Command) :
    ∀ e0 i0, parses.foldl
      (fun (acc : List String × List (Command × DNFFormula)) p =>
        match InterpTS.interpretCommand w p with
        | .error e => (acc.1 ++ [e], acc.2)
        | .ok dnf => (acc.1, acc.2 ++ [(p, dnf)]))
      (e0, i0)
    = (e0 ++ parses.filterMap (InterpTS.errOf w), i0 ++ parses.filterMap (InterpTS.okOf w)) := by
  induction parses with
  | nil => intro e0 i0; simp
  | cons p ps ih =>
    intro e0 i0
    simp only [List.foldl_cons, List.filterMap_cons]
    cases h : InterpTS.interpretCommand w p with
    | error e => simp [InterpTS.errOf, InterpTS.okOf, h, ih]
    | ok dnf => simp [InterpTS.errOf, InterpTS.okOf, h, ih]

/-- C7 amended: the top-level `interpret` throws exactly when every parse
fails (one parse's failure never aborts the others), and the thrown
message is the per-parse error messages joined with " ; " in parse order
-- without deduplication, unlike the claim's "distinct" messages. -/
theorem C7_error_iff (parses : List Command) (w : WorldState) (s : String) :
    InterpTS.interpret parses w = .error s ↔
      ((∀ p ∈ parses, ∃ e, InterpTS.interpretCommand w p = .error e)
       ∧ s = String.intercalate " ; " (parses.filterMap (InterpTS.errOf w))) := by
  have hok : ∀ p, (InterpTS.okOf w p = none ↔ ∃ e, InterpTS.interpretCommand w p = .error e) := by
    intro p
    unfold InterpTS.okOf
    cases h : InterpTS.interpretCommand w p <;> simp
  unfold InterpTS.interpret
  rw [interpret_foldl_spec]
  simp only [List.nil_append]
  by_cases hempty : parses.filterMap (InterpTS.okOf w) = []
  · rw [hempty]
    simp only [List.length_nil]
    constructor
    · intro h
      have hs : s = String.intercalate " ; " (parses.filterMap (InterpTS.errOf w)) := by
        simpa using h.symm
      refine ⟨?_, hs⟩
      intro p hp
      exact (hok p).mp (List.filterMap_eq_nil_iff.mp hempty p hp)
    · rintro ⟨hall, rfl⟩
      simp
  · have hlen : (parses.filterMap (InterpTS.okOf w)).length ≠ 0 := by
      simpa [List.length_eq_zero] using hempty
    constructor
    · intro h
      simp [hlen] at h
    · rintro ⟨hall, rfl⟩
      exfalso
      exact hempty (List.filterMap_eq_nil_iff.mpr (fun p hp => (hok p).mpr (hall p hp)))

/-- Decomposition of a flattened list of stacks around index `i`. -/
theorem flatten_parts (L : List (List String)) (i : Nat) (hi : i < L.length) :
    L.flatten = (L.take i).flatten ++ (L[i] ++ (L.drop (i + 1)).flatten) := by
  conv_lhs => rw [← List.take_append_drop i L]
  rw [List.flatten_append, List.drop_eq_getElem_cons hi, List.flatten_cons]

/-- Decomposition of the flattening after updating stack `i`. -/
theorem flatten_set_parts (L : List (List String)) (i : Nat) (v : List String)
    (hi : i < L.length) :
    (L.set i v).flatten = (L.take i).flatten ++ (v ++ (L.drop (i + 1)).flatten) := by
  rw [List.set_eq_take_cons_drop _ hi, List.flatten_append, List.flatten_cons]

/-- Removing the last element of stack `i` and holding it instead
permutes the active ids. -/
theorem pick_perm (L : List (List String)) (i : Nat) (hi : i < L.length) (v : List String)
    (b : String) (hsplit : L[i] = v ++ [b]) :
    List.Perm (b :: (L.set i v).flatten) L.flatten := by
  rw [flatten_set_parts L i v hi, flatten_parts L i hi, hsplit]
  have h1 : (L.take i).flatten ++ ((v ++ [b]) ++ (L.drop (i + 1)).flatten)
      = ((L.take i).flatten ++ v) ++ b :: (L.drop (i + 1)).flatten := by simp
  have h2 : b :: ((L.take i).flatten ++ (v ++ (L.drop (i + 1)).flatten))
      = b :: (((L.take i).flatten ++ v) ++ (L.drop (i + 1)).flatten) := by simp
  rw [h1, h2]
  exact List.perm_middle.symm

/-- Appending an element to stack `i` accounts for exactly one new id. -/
theorem place_perm (L : List (List String)) (i : Nat) (hi : i < L.length) (b : String) :
    List.Perm ((L.set i (L[i] ++ [b])).flatten) (b :: L.flatten) := by
  rw [flatten_set_parts L i _ hi, flatten_parts L i hi]
  have h1 : (L.take i).flatten ++ ((L[i] ++ [b]) ++ (L.drop (i + 1)).flatten)
      = ((L.take i).flatten ++ L[i]) ++ b :: (L.drop (i + 1)).flatten := by simp
  have h2 : b :: ((L.take i).flatten ++ (L[i] ++ (L.drop (i + 1)).flatten))
      = b :: (((L.take i).flatten ++ L[i]) ++ (L.drop (i + 1)).flatten) := by simp
  rw [h1, h2]
  exact List.perm_middle

/-- Under the no-duplicates invariant, a held object is on no stack. -/
theorem holding_notin (s : WorldState) (hnd : (idsList s).Nodup) :
    ∀ hid, s.holding = some hid → ∀ st ∈ s.stacks, hid ∉ st := by
  intro hid hh st hst hmem
  unfold idsList at hnd
  rw [hh] at hnd
  simp only [List.cons_append, List.nil_append, List.nodup_cons] at hnd
  exact hnd.1 (List.mem_flatten.mpr ⟨st, hst, hmem⟩)

/-- The defaulted stack access at a valid arm column is the stack
itself. -/
theorem stacks_getD_eq (s : WorldState) (h : s.arm < s.stacks.length) :
    s.stacks.getD s.arm [] = s.stacks[s.arm] := by
  rw [List.getD_eq_getElem?_getD, List.getElem?_eq_getElem h, Option.getD_some]

/-- C10: every successor produced by the state graph's transition
function preserves the world-snapshot invariant: the arm stays a valid
column, the number of stacks is unchanged, the active ids are preserved as
a multiset (hence no duplicates appear), and the held object (when set)
appears in no stack.  The transition is a pure function of the parent
state (the source deep-clones before mutating), so the parent snapshot is
untouched by construction. -/
theorem C10_neighbor_wf (s s2 : WorldState) (action : String)
    (hwf : WFState s) (h : Planner.neighborState s action = some s2) :
    s2.arm < s2.stacks.length
    ∧ s2.stacks.length = s.stacks.length
    ∧ List.Perm (idsList s2) (idsList s)
    ∧ (idsList s2).Nodup
    ∧ (∀ hid, s2.holding = some hid → ∀ st ∈ s2.stacks, hid ∉ st) := by
  obtain ⟨harm, hnd⟩ := hwf
  have main : s2.arm < s2.stacks.length
      ∧ s2.stacks.length = s.stacks.length
      ∧ List.Perm (idsList s2) (idsList s) := by
    unfold Planner.neighborState at h
    split at h
    · -- action = "l"
      split at h
      · exact absurd h (by simp)
      · injection h with h
        subst h
        exact ⟨Nat.lt_of_le_of_lt (Nat.sub_le _ _) harm, rfl, List.Perm.refl _⟩
    · split at h
      · -- action = "r"
        rename_i hcond
        split at h
        · exact absurd h (by simp)
        · rename_i hlt
          injection h with h
          subst h
          refine ⟨?_, rfl, List.Perm.refl _⟩
          dsimp only
          omega
      · split at h
        · -- action = "p"
          dsimp only at h
          split at h
          · exact absurd h (by simp)
          · rename_i hguard
            have hnone : s.holding = none := by
              rcases hg : s.holding with _ | v
              · rfl
              · rw [hg] at hguard; simp at hguard
            have hlen : (s.stacks.getD s.arm []).length ≠ 0 := by
              intro h0
              rw [h0] at hguard
              simp at hguard
            rw [stacks_getD_eq s harm] at h hlen
            have hne : s.stacks[s.arm] ≠ [] := fun he => hlen (by rw [he]; rfl)
            injection h with h
            subst h
            refine ⟨by simpa using harm, by simp, ?_⟩
            unfold idsList
            simp only [hnone, List.nil_append, List.cons_append]
            have hlast : (s.stacks[s.arm]).getLastD "" = (s.stacks[s.arm]).getLast hne := by
              rw [List.getLastD_eq_getLast?, List.getLast?_eq_getLast _ hne, Option.getD_some]
            rw [hlast]
            exact pick_perm s.stacks s.arm harm _ _ (List.dropLast_append_getLast hne).symm
        · split at h
          · -- action = "d"
            dsimp only at h
            split at h
            · exact absurd h (by simp)
            · rename_i hv hhold
              rw [stacks_getD_eq s harm] at h
              split at h
              all_goals split at h
              · exact absurd h (by simp)
              · injection h with h
                subst h
                refine ⟨by simpa using harm, by simp, ?_⟩
                unfold idsList
                simp only [hhold, List.nil_append, List.cons_append]
                exact place_perm s.stacks s.arm harm hv
              · exact absurd h (by simp)
              · injection h with h
                subst h
                refine ⟨by simpa using harm, by simp, ?_⟩
                unfold idsList
                simp only [hhold, List.nil_append, List.cons_append]
                exact place_perm s.stacks s.arm harm hv
          · exact absurd h (by simp)
  refine ⟨main.1, main.2.1, main.2.2, main.2.2.symm.nodup hnd,
    holding_notin s2 (main.2.2.symm.nodup hnd)⟩

/-- C10 witness: the invariant theorem applied to the two-ball world and
the pick action. -/
theorem C10_neighbor_wf_witness :
    WFState wTwoBalls
    ∧ Planner.neighborState wTwoBalls "p" = some wTwoBallsAfterP
    ∧ (wTwoBallsAfterP.arm < wTwoBallsAfterP.stacks.length
       ∧ wTwoBallsAfterP.stacks.length = wTwoBalls.stacks.length
       ∧ List.Perm (idsList wTwoBallsAfterP) (idsList wTwoBalls)
       ∧ (idsList wTwoBallsAfterP).Nodup
       ∧ (∀ hid, wTwoBallsAfterP.holding = some hid →
            ∀ st ∈ wTwoBallsAfterP.stacks, hid ∉ st)) :=
  ⟨⟨by decide, by decide⟩, rfl,
   C10_neighbor_wf wTwoBalls wTwoBallsAfterP "p" ⟨by decide, by decide⟩ rfl⟩

/-- A found index is a valid index. -/
theorem indexOfFirst_lt_length : ∀ (l : List String) (obj : String) (j : Nat),
    indexOfFirst l obj = some j → j < l.length := by
  intro l
  induction l with
  | nil => intro obj j h; simp [indexOfFirst] at h
  | cons x xs ih =>
    intro obj j h
    simp only [indexOfFirst] at h
    split at h
    · injection h with h
      simp only [List.length_cons]
      omega
    · obtain ⟨j0, hj0, hj⟩ := Option.map_eq_some'.mp h
      have := ih obj j0 hj0
      simp only [List.length_cons]
      omega

/-- What the planner's coordinate scan guarantees: a hit names a stack
offset from the running index and a valid row of that stack. -/
theorem coordinateAux_spec : ∀ (L : List (List String)) (obj : String) (i : Nat) (x y : Int),
    Planner.coordinateAux L obj i = some (x, y) →
    ∃ (k j : Nat), x = ((i + k : Nat) : Int) ∧ y = (j : Int) ∧ j < (L.getD k []).length := by
  intro L
  induction L with
  | nil => intro obj i x y h; simp [Planner.coordinateAux] at h
  | cons st rest ih =>
    intro obj i x y h
    simp only [Planner.coordinateAux] at h
    cases hf : indexOfFirst st obj with
    | some j =>
      rw [hf] at h
      injection h with h
      injection h with hx hy
      refine ⟨0, j, by simp [hx.symm], hy.symm, ?_⟩
      simpa using indexOfFirst_lt_length st obj j hf
    | none =>
      rw [hf] at h
      obtain ⟨k, j, hx, hy, hj⟩ := ih obj (i + 1) x y h
      refine ⟨k + 1, j, ?_, hy, by simpa using hj⟩
      rw [hx]
      congr 1
      omega

/-- Whatever `coordinate` returns, the objects-on-top count is not
negative (the floor's `(-1,-1)` gives exactly 0). -/
theorem coord_numOnTop_nonneg (obj : String) (s : WorldState) (c : Int × Int)
    (h : Planner.coordinate obj s = some c) : 0 ≤ Planner.numOnTop s c := by
  unfold Planner.coordinate at h
  split at h
  · injection h with h
    subst h
    unfold Planner.numOnTop Planner.stackAt
    norm_num
  · obtain ⟨x, y⟩ := c
    obtain ⟨k, j, hx, hy, hj⟩ := coordinateAux_spec s.stacks obj 0 x y h
    subst hx hy
    unfold Planner.numOnTop Planner.stackAt
    rw [if_neg (by omega)]
    simp only [Nat.zero_add, Int.toNat_natCast]
    omega

/-- `Math.abs` is nonnegative. -/
theorem absInt_nonneg (i : Int) : 0 ≤ absInt i := by
  unfold absInt
  positivity

/-- `h_holding` never goes negative. -/
theorem h_holding_nonneg (lit : Literal) (s : WorldState) : 0 ≤ Planner.h_holding lit s := by
  unfold Planner.h_holding
  cases hA : Planner.coordinate (lit.args.getD 0 "") s with
  | none => norm_num
  | some cA =>
    have h1 := coord_numOnTop_nonneg _ _ _ hA
    have a1 := absInt_nonneg ((s.arm : Int) - cA.1)
    dsimp only
    omega

/-- `h_left` never goes negative. -/
theorem h_left_nonneg (lit : Literal) (s : WorldState) : 0 ≤ Planner.h_left lit s := by
  unfold Planner.h_left
  cases hA : Planner.coordinate (lit.args.getD 0 "") s with
  | none =>
    cases hB : Planner.coordinate (lit.args.getD 1 "") s with
    | none => norm_num
    | some cB => dsimp only; split <;> omega
  | some cA =>
    cases hB : Planner.coordinate (lit.args.getD 1 "") s with
    | none => dsimp only; split <;> omega
    | some cB =>
      have h1 := coord_numOnTop_nonneg _ _ _ hA
      have h2 := coord_numOnTop_nonneg _ _ _ hB
      have a1 := absInt_nonneg (cA.1 - cB.1)
      have a2 := absInt_nonneg ((s.arm : Int) - cA.1)
      have a3 := absInt_nonneg ((s.arm : Int) - cB.1)
      dsimp only
      omega

/-- `h_right` never goes negative. -/
theorem h_right_nonneg (lit : Literal) (s : WorldState) : 0 ≤ Planner.h_right lit s := by
  unfold Planner.h_right
  cases hA : Planner.coordinate (lit.args.getD 0 "") s with
  | none =>
    cases hB : Planner.coordinate (lit.args.getD 1 "") s with
    | none => norm_num
    | some cB => dsimp only; split <;> omega
  | some cA =>
    cases hB : Planner.coordinate (lit.args.getD 1 "") s with
    | none => dsimp only; split <;> omega
    | some cB =>
      have h1 := coord_numOnTop_nonneg _ _ _ hA
      have h2 := coord_numOnTop_nonneg _ _ _ hB
      have a1 := absInt_nonneg (cA.1 - cB.1)
      have a2 := absInt_nonneg ((s.arm : Int) - cA.1)
      have a3 := absInt_nonneg ((s.arm : Int) - cB.1)
      dsimp only
      omega

/-- `h_beside` never goes negative. -/
theorem h_beside_nonneg (lit : Literal) (s : WorldState) : 0 ≤ Planner.h_beside lit s := by
  unfold Planner.h_beside
  cases hA : Planner.coordinate (lit.args.getD 0 "") s with
  | none =>
    cases hB : Planner.coordinate (lit.args.getD 1 "") s with
    | none => norm_num
    | some cB => exact absInt_nonneg _
  | some cA =>
    cases hB : Planner.coordinate (lit.args.getD 1 "") s with
    | none => exact absInt_nonneg _
    | some cB =>
      have h1 := coord_numOnTop_nonneg _ _ _ hA
      have h2 := coord_numOnTop_nonneg _ _ _ hB
      have a1 := absInt_nonneg (cA.1 - cB.1)
      have a2 := absInt_nonneg ((s.arm : Int) - cA.1)
      have a3 := absInt_nonneg ((s.arm : Int) - cB.1)
      dsimp only
      split <;> omega

/-- `h_inside` never goes negative. -/
theorem h_inside_nonneg (lit : Literal) (s : WorldState) : 0 ≤ Planner.h_inside lit s := by
  unfold Planner.h_inside
  cases hA : Planner.coordinate (lit.args.getD 0 "") s with
  | none =>
    cases hB : Planner.coordinate (lit.args.getD 1 "") s with
    | none => norm_num
    | some cB =>
      have h2 := coord_numOnTop_nonneg _ _ _ hB
      have a3 := absInt_nonneg ((s.arm : Int) - cB.1)
      dsimp only
      omega
  | some cA =>
    cases hB : Planner.coordinate (lit.args.getD 1 "") s with
    | none =>
      have h1 := coord_numOnTop_nonneg _ _ _ hA
      have a2 := absInt_nonneg ((s.arm : Int) - cA.1)
      dsimp only
      omega
    | some cB =>
      have h1 := coord_numOnTop_nonneg _ _ _ hA
      have h2 := coord_numOnTop_nonneg _ _ _ hB
      have a1 := absInt_nonneg (cA.1 - cB.1)
      have a2 := absInt_nonneg ((s.arm : Int) - cA.1)
      have a3 := absInt_nonneg ((s.arm : Int) - cB.1)
      dsimp only
      split <;> omega

/-- `h_ontop` never goes negative. -/
theorem h_ontop_nonneg (lit : Literal) (s : WorldState) : 0 ≤ Planner.h_ontop lit s := by
  unfold Planner.h_ontop
  cases hA : Planner.coordinate (lit.args.getD 0 "") s with
  | none =>
    cases hB : Planner.coordinate (lit.args.getD 1 "") s with
    | none => norm_num
    | some cB =>
      have h2 := coord_numOnTop_nonneg _ _ _ hB
      have a3 := absInt_nonneg ((s.arm : Int) - cB.1)
      dsimp only
      split <;> omega
  | some cA =>
    cases hB : Planner.coordinate (lit.args.getD 1 "") s with
    | none =>
      have h1 := coord_numOnTop_nonneg _ _ _ hA
      have a2 := absInt_nonneg ((s.arm : Int) - cA.1)
      dsimp only
      omega
    | some cB =>
      have h1 := coord_numOnTop_nonneg _ _ _ hA
      have h2 := coord_numOnTop_nonneg _ _ _ hB
      have a1 := absInt_nonneg (cA.1 - cB.1)
      have a2 := absInt_nonneg ((s.arm : Int) - cA.1)
      have a3 := absInt_nonneg ((s.arm : Int) - cB.1)
      dsimp only
      split
      · omega
      · split <;> omega

/-- `h_above` never goes negative. -/
theorem h_above_nonneg (lit : Literal) (s : WorldState) : 0 ≤ Planner.h_above lit s := by
  unfold Planner.h_above
  cases hA : Planner.coordinate (lit.args.getD 0 "") s with
  | none =>
    cases hB : Planner.coordinate (lit.args.getD 1 "") s with
    | none => norm_num
    | some cB =>
      have a3 := absInt_nonneg ((s.arm : Int) - cB.1)
      dsimp only
      split <;> omega
  | some cA =>
    cases hB : Planner.coordinate (lit.args.getD 1 "") s with
    | none =>
      have h1 := coord_numOnTop_nonneg _ _ _ hA
      have a2 := absInt_nonneg ((s.arm : Int) - cA.1)
      dsimp only
      omega
    | some cB =>
      have h1 := coord_numOnTop_nonneg _ _ _ hA
      have a1 := absInt_nonneg (cA.1 - cB.1)
      have a2 := absInt_nonneg ((s.arm : Int) - cA.1)
      dsimp only
      split <;> omega

/-- `h_under` never goes negative. -/
theorem h_under_nonneg (lit : Literal) (s : WorldState) : 0 ≤ Planner.h_under lit s := by
  unfold Planner.h_under
  cases hA : Planner.coordinate (lit.args.getD 0 "") s with
  | none =>
    cases hB : Planner.coordinate (lit.args.getD 1 "") s with
    | none => norm_num
    | some cB =>
      have h2 := coord_numOnTop_nonneg _ _ _ hB
      have a3 := absInt_nonneg ((s.arm : Int) - cB.1)
      dsimp only
      omega
  | some cA =>
    cases hB : Planner.coordinate (lit.args.getD 1 "") s with
    | none =>
      have a2 := absInt_nonneg ((s.arm : Int) - cA.1)
      dsimp only
      omega
    | some cB =>
      have h2 := coord_numOnTop_nonneg _ _ _ hB
      have a1 := absInt_nonneg (cA.1 - cB.1)
      have a3 := absInt_nonneg ((s.arm : Int) - cB.1)
      dsimp only
      omega

/-- Every per-literal heuristic value is nonnegative. -/
theorem heurForLit_nonneg (lit : Literal) (s : WorldState) : 0 ≤ Planner.heurForLit lit s := by
  unfold Planner.heurForLit
  split
  · exact h_holding_nonneg lit s
  · split
    · norm_num
    · split
      · exact h_left_nonneg lit s
      · split
        · exact h_right_nonneg lit s
        · split
          · exact h_beside_nonneg lit s
          · split
            · exact h_inside_nonneg lit s
            · split
              · exact h_ontop_nonneg lit s
              · split
                · exact h_above_nonneg lit s
                · split
                  · exact h_under_nonneg lit s
                  · norm_num

/-- A literal the binary positional predicate accepts cannot be a
`holding` literal (every accepted relation name differs from it). -/
theorem isValidBinary_ne_holding (lit : Literal) (s : WorldState)
    (h : Planner.isValidBinaryRelation lit s = true) : (lit.relation == "holding") = false := by
  by_cases hr : lit.relation = "holding"
  · exfalso
    unfold Planner.isValidBinaryRelation at h
    rw [hr] at h
    cases hA : Planner.coordinate (lit.args.getD 0 "") s with
    | none => rw [hA] at h; simp at h
    | some cA =>
      cases hB : Planner.coordinate (lit.args.getD 1 "") s with
      | none => rw [hA, hB] at h; simp at h
      | some cB =>
        rw [hA, hB] at h
        dsimp only at h
        split at h <;> simp at h
  · simpa using hr

/-- A literal that already holds contributes 0 to the heuristic: a true
`holding` literal names the held object, which is on no stack under the
snapshot invariant, and a true binary literal is short-circuited by the
`isValidBinaryRelation` test. -/
theorem isTrueLit_heur_zero (lit : Literal) (s : WorldState)
    (hhold : ∀ h, s.holding = some h → Planner.coordinate h s = none)
    (ht : Planner.isTrueLit lit s = true) : Planner.heurForLit lit s = 0 := by
  unfold Planner.isTrueLit at ht
  split at ht
  · unfold Planner.isValidUnaryRelation at ht
    simp only [Bool.and_eq_true] at ht
    obtain ⟨hr, hh⟩ := ht
    have hh2 : s.holding = some (lit.args.getD 0 "") := by
      exact eq_of_beq hh
    unfold Planner.heurForLit
    rw [hr]
    simp only [if_true]
    unfold Planner.h_holding
    rw [hhold _ hh2]
  · split at ht
    · have hr := isValidBinary_ne_holding lit s ht
      unfold Planner.heurForLit
      rw [hr, ht]
      simp
    · exact absurd ht (by simp)

/-- Folding `max` from a nonnegative seed stays nonnegative. -/
theorem foldl_max_nonneg : ∀ (xs : List Int) (acc : Int), 0 ≤ acc → 0 ≤ xs.foldl max acc := by
  intro xs
  induction xs with
  | nil => intro acc h; simpa using h
  | cons x xs ih =>
    intro acc h
    simp only [List.foldl_cons]
    exact ih _ (le_trans h (le_max_left _ _))

/-- Folding `max` over zeros from zero gives zero. -/
theorem foldl_max_zeros : ∀ (xs : List Int) (acc : Int), acc = 0 → (∀ x ∈ xs, x = 0) →
    xs.foldl max acc = 0 := by
  intro xs
  induction xs with
  | nil => intro acc h _; simpa using h
  | cons x xs ih =>
    intro acc h hz
    simp only [List.foldl_cons]
    refine ih _ ?_ (fun y hy => hz y (List.mem_cons_of_mem _ hy))
    rw [h, hz x (List.mem_cons_self _ _)]
    simp

/-- `Math.max` of a non-empty list of zeros is 0. -/
theorem maxE_zeros (l : List Int) (hne : l ≠ []) (hz : ∀ x ∈ l, x = 0) : maxE l = .fin 0 := by
  cases l with
  | nil => exact absurd rfl hne
  | cons x xs =>
    simp only [maxE]
    rw [foldl_max_zeros xs x (hz x (List.mem_cons_self _ _))
      (fun y hy => hz y (List.mem_cons_of_mem _ hy))]

/-- `Math.max` of a non-empty list of nonnegative values is a
nonnegative finite value. -/
theorem maxE_nonneg (l : List Int) (hne : l ≠ []) (h : ∀ x ∈ l, 0 ≤ x) :
    ∃ k, maxE l = .fin k ∧ 0 ≤ k := by
  cases l with
  | nil => exact absurd rfl hne
  | cons x xs =>
    exact ⟨xs.foldl max x, rfl, foldl_max_nonneg xs x (h x (List.mem_cons_self _ _))⟩

/-- `Math.min` of `Infinity` and a finite value. -/
theorem JSmin_posInf_fin (k : Int) : JSNum.min .posInf (.fin k) = .fin k := by
  simp [JSNum.min, JSNum.blt]

/-- `Math.min` of two finite values. -/
theorem JSmin_fin_fin (a b : Int) : JSNum.min (.fin a) (.fin b) = .fin (min a b) := by
  unfold JSNum.min JSNum.blt
  split <;> rename_i h <;> simp at h <;> congr 1 <;> omega

/-- Folding `Math.min` over finite nonnegative values that include 0
gives 0. -/
theorem foldl_JSmin_fin_zero : ∀ (l : List JSNum) (acc : JSNum),
    (acc = .posInf ∨ ∃ k, acc = .fin k ∧ 0 ≤ k) →
    (∀ x ∈ l, ∃ k, x = .fin k ∧ 0 ≤ k) →
    (JSNum.fin 0 ∈ l ∨ acc = .fin 0) →
    l.foldl JSNum.min acc = .fin 0 := by
  intro l
  induction l with
  | nil =>
    intro acc _ _ hin
    rcases hin with hin | hin
    · exact absurd hin (by simp)
    · simpa using hin
  | cons x xs ih =>
    intro acc hacc hall hin
    obtain ⟨kx, hx, hkx⟩ := hall x (List.mem_cons_self _ _)
    simp only [List.foldl_cons]
    have hall2 : ∀ y ∈ xs, ∃ k, y = .fin k ∧ 0 ≤ k :=
      fun y hy => hall y (List.mem_cons_of_mem _ hy)
    rcases hacc with rfl | ⟨ka, rfl, hka⟩
    · rw [hx, JSmin_posInf_fin]
      rcases hin with hin | hin
      · rcases List.mem_cons.mp hin with heq | hmem
        · refine ih _ (Or.inr ⟨kx, rfl, hkx⟩) hall2 (Or.inr ?_)
          rw [hx] at heq
          injection heq.symm with hk
          rw [hk]
        · exact ih _ (Or.inr ⟨kx, rfl, hkx⟩) hall2 (Or.inl hmem)
      · exact absurd hin (by simp)
    · rw [hx, JSmin_fin_fin]
      rcases hin with hin | hin
      · rcases List.mem_cons.mp hin with heq | hmem
        · rw [hx] at heq
          injection heq.symm with hk
          refine ih _ (Or.inr ⟨min ka kx, rfl, le_min hka hkx⟩) hall2 (Or.inr ?_)
          rw [hk]
          congr 1
          omega
        · exact ih _ (Or.inr ⟨min ka kx, rfl, le_min hka hkx⟩) hall2 (Or.inl hmem)
      · injection hin with hk
        refine ih _ (Or.inr ⟨min ka kx, rfl, le_min hka hkx⟩) hall2 (Or.inr ?_)
        rw [hk]
        congr 1
        omega

/-- C9 amended: at any state that satisfies the goal test, the heuristic
evaluates to exactly 0, provided every conjunction of the DNF is
non-empty (an empty conjunction instead drives it to `-Infinity`, see the
counterexample) and the snapshot invariant holds for the held object
(a held object sits on no stack, so `coordinate` misses it). -/
theorem C9_goal_heuristic_zero (intp : DNFFormula) (node : Planner.ShrdliteNode)
    (hconj : ∀ conj ∈ intp.conjuncts, conj.literals ≠ [])
    (hhold : ∀ h, node.state.holding = some h → Planner.coordinate h node.state = none)
    (hgoal : Planner.goalTest intp node = true) :
    Planner.heuristics intp node = .fin 0 := by
  unfold Planner.goalTest at hgoal
  rw [List.any_eq_true] at hgoal
  obtain ⟨conj, hc, htrue⟩ := hgoal
  unfold Planner.heuristics minE
  apply foldl_JSmin_fin_zero
  · exact Or.inl rfl
  · intro x hx
    obtain ⟨c2, hc2, hx2⟩ := List.mem_map.mp hx
    obtain ⟨k, hk, hk0⟩ := maxE_nonneg (c2.literals.map (fun lit => Planner.heurForLit lit node.state))
      (by simpa using hconj c2 hc2)
      (by
        intro y hy
        obtain ⟨lit, _, hy2⟩ := List.mem_map.mp hy
        exact hy2 ▸ heurForLit_nonneg lit node.state)
    exact ⟨k, hx2 ▸ hk, hk0⟩
  · left
    refine List.mem_map.mpr ⟨conj, hc, ?_⟩
    unfold Planner.heurForConj
    apply maxE_zeros
    · simpa using hconj conj hc
    · intro x hx
      obtain ⟨lit, hlit, hx2⟩ := List.mem_map.mp hx
      unfold Planner.isTrueConj at htrue
      rw [List.all_eq_true] at htrue
      exact hx2 ▸ isTrueLit_heur_zero lit node.state hhold (htrue lit hlit)

/-- C9 witness: the amended theorem applied to the goal `holding(b1)` in
the world where `b1` is held. -/
theorem C9_goal_heuristic_zero_witness :
    (∀ conj ∈ dnfHold.conjuncts, conj.literals ≠ [])
    ∧ Planner.goalTest dnfHold (Planner.mkNode wBall1p) = true
    ∧ Planner.heuristics dnfHold (Planner.mkNode wBall1p) = .fin 0 := by
  refine ⟨by decide, rfl, ?_⟩
  refine C9_goal_heuristic_zero dnfHold (Planner.mkNode wBall1p) (by decide) ?_ rfl
  intro h hh
  have hb : some "b1" = some h := hh
  injection hb with hb
  subst hb
  rfl

/-- What membership in a successor list means: the action applies to the
node's state, the edge costs 1, and the action is one of the four
characters. -/
theorem mem_successors (n : Planner.ShrdliteNode) (e : Planner.Successor)
    (h : e ∈ Planner.successors n) :
    Planner.neighborState n.state e.action = some e.child.state
    ∧ e.cost = 1
    ∧ e.action ∈ (["l", "r", "p", "d"] : List String) := by
  unfold Planner.successors at h
  rw [List.mem_filterMap] at h
  obtain ⟨a, ha, hsome⟩ := h
  rcases Option.map_eq_some'.mp hsome with ⟨st, hst, he⟩
  subst he
  exact ⟨hst, rfl, ha⟩

/-- Executing a single action is one transition. -/
theorem execActions_single (st : WorldState) (a : String) :
    Planner.execActions st [a] = Planner.neighborState st a := by
  cases h : Planner.neighborState st a with
  | none => simp [Planner.execActions, h]
  | some s2 => simp [Planner.execActions, h]

/-- Executing a concatenation chains the two executions. -/
theorem execActions_append (xs ys : List String) : ∀ s, Planner.execActions s (xs ++ ys)
    = (Planner.execActions s xs).bind (fun s2 => Planner.execActions s2 ys) := by
  induction xs with
  | nil => intro s; rfl
  | cons a xs ih =>
    intro s
    simp only [List.cons_append]
    cases h : Planner.neighborState s a with
    | none => simp [Planner.execActions, h]
    | some s2 => simp [Planner.execActions, h, ih s2]

/-- Soundness of valid search nodes: the collected edge path executes
from the start to exactly the node's graph node, its cost equals the path
length (every Shrdlite edge costs 1), and every edge's action is one of
the four characters. -/
theorem valid_exec (startNode : Planner.ShrdliteNode) (sn : Planner.SearchNode)
    (h : Planner.ValidSN startNode sn) :
    Planner.execActions startNode.state (sn.path.map (fun e => e.action))
      = some ((sn.graphnode startNode).state)
    ∧ sn.totalcost = (sn.path.length : Int)
    ∧ ∀ e ∈ sn.path, e.action ∈ (["l", "r", "p", "d"] : List String) := by
  induction h with
  | start ac => exact ⟨rfl, rfl, by simp [Planner.SearchNode.path]⟩
  | child p e ac hp he ih =>
    obtain ⟨hexec, hcost, hacts⟩ := ih
    obtain ⟨hnb, hcost1, hact⟩ := mem_successors _ e he
    refine ⟨?_, ?_, ?_⟩
    · show Planner.execActions startNode.state ((p.path ++ [e]).map (fun e => e.action))
        = some e.child.state
      rw [List.map_append, execActions_append, hexec]
      simp only [List.map_cons, List.map_nil, Option.some_bind]
      rw [execActions_single, hnb]
    · show p.totalcost + e.cost = (((p.path ++ [e]).length : Nat) : Int)
      rw [hcost, hcost1]
      simp
    · show ∀ e2 ∈ p.path ++ [e], e2.action ∈ (["l", "r", "p", "d"] : List String)
      intro e2 he2
      rcases List.mem_append.mp he2 with h2 | h2
      · exact hacts e2 h2
      · rw [List.mem_singleton.mp h2]
        exact hact

/-- The scan's chosen element and leftovers all come from the scanned
elements. -/
theorem dequeueMinAux_mem : ∀ (ys : List Planner.SearchNode) (best : Planner.SearchNode)
    (acc : List Planner.SearchNode),
    ((Planner.dequeueMinAux best acc ys).1 = best ∨ (Planner.dequeueMinAux best acc ys).1 ∈ ys)
    ∧ (∀ z ∈ (Planner.dequeueMinAux best acc ys).2, z ∈ acc ∨ z = best ∨ z ∈ ys) := by
  intro ys
  induction ys with
  | nil =>
    intro best acc
    refine ⟨Or.inl rfl, ?_⟩
    intro z hz
    simp only [Planner.dequeueMinAux] at hz
    exact Or.inl (by simpa using hz)
  | cons y ys ih =>
    intro best acc
    unfold Planner.dequeueMinAux
    split
    · obtain ⟨ih1, ih2⟩ := ih y (best :: acc)
      refine ⟨?_, ?_⟩
      · rcases ih1 with h | h
        · exact Or.inr (by rw [h]; exact List.mem_cons_self _ _)
        · exact Or.inr (List.mem_cons_of_mem _ h)
      · intro z hz
        rcases ih2 z hz with h | h | h
        · rcases List.mem_cons.mp h with h2 | h2
          · exact Or.inr (Or.inl h2)
          · exact Or.inl h2
        · exact Or.inr (Or.inr (by rw [h]; exact List.mem_cons_self _ _))
        · exact Or.inr (Or.inr (List.mem_cons_of_mem _ h))
    · obtain ⟨ih1, ih2⟩ := ih best (y :: acc)
      refine ⟨?_, ?_⟩
      · rcases ih1 with h | h
        · exact Or.inl h
        · exact Or.inr (List.mem_cons_of_mem _ h)
      · intro z hz
        rcases ih2 z hz with h | h | h
        · rcases List.mem_cons.mp h with h2 | h2
          · exact Or.inr (Or.inr (by rw [h2]; exact List.mem_cons_self _ _))
          · exact Or.inl h2
        · exact Or.inr (Or.inl h)
        · exact Or.inr (Or.inr (List.mem_cons_of_mem _ h))

/-- A dequeued element was in the queue, and the remaining queue is a
subset of it. -/
theorem dequeueMin_mem (l : List Planner.SearchNode) (x : Planner.SearchNode)
    (rest : List Planner.SearchNode) (h : Planner.dequeueMin l = some (x, rest)) :
    x ∈ l ∧ ∀ z ∈ rest, z ∈ l := by
  cases l with
  | nil => simp [Planner.dequeueMin] at h
  | cons a as =>
    simp only [Planner.dequeueMin] at h
    injection h with h
    obtain ⟨h1, h2⟩ := dequeueMinAux_mem as a []
    rw [h] at h1 h2
    constructor
    · rcases h1 with h1 | h1
      · have h1b : x = a := h1
        rw [h1b]
        exact List.mem_cons_self _ _
      · exact List.mem_cons_of_mem _ h1
    · intro z hz
      rcases h2 z hz with h3 | h3 | h3
      · exact absurd h3 (by simp)
      · rw [h3]
        exact List.mem_cons_self _ _
      · exact List.mem_cons_of_mem _ h3

/-- One expansion step only appends a child of the expanded node. -/
theorem expandStep_mem (heur : Planner.ShrdliteNode → JSNum) (sn : Planner.SearchNode)
    (acc : List Planner.SearchNode × List (String × JSNum)) (next : Planner.Successor)
    (x : Planner.SearchNode) (hx : x ∈ (Planner.expandStep heur sn acc next).1) :
    x ∈ acc.1 ∨ ∃ ac, x = Planner.SearchNode.child sn next (sn.totalcost + next.cost) ac := by
  unfold Planner.expandStep at hx
  dsimp only at hx
  split at hx
  · rcases List.mem_append.mp hx with h | h
    · exact Or.inl h
    · exact Or.inr ⟨_, List.mem_singleton.mp h⟩
  · exact Or.inl hx

/-- The expansion loop only appends children of the expanded node. -/
theorem expand_mem (heur : Planner.ShrdliteNode → JSNum) (sn : Planner.SearchNode) :
    ∀ (succs : List Planner.Successor) (acc : List Planner.SearchNode × List (String × JSNum))
    (x : Planner.SearchNode), x ∈ (succs.foldl (Planner.expandStep heur sn) acc).1 →
    x ∈ acc.1 ∨ ∃ e ∈ succs, ∃ ac, x = Planner.SearchNode.child sn e (sn.totalcost + e.cost) ac := by
  intro succs
  induction succs with
  | nil => intro acc x h; exact Or.inl h
  | cons e es ih =>
    intro acc x h
    simp only [List.foldl_cons] at h
    rcases ih _ x h with h2 | ⟨e2, he2, ac, hx⟩
    · rcases expandStep_mem heur sn acc e x h2 with h3 | ⟨ac, hx⟩
      · exact Or.inl h3
      · exact Or.inr ⟨e, List.mem_cons_self _ _, ac, hx⟩
    · exact Or.inr ⟨e2, List.mem_cons_of_mem _ he2, ac, hx⟩

/-- The A* loop invariant: starting from a frontier of valid search
nodes, a success result reports the path and cost of some valid search
node whose graph node satisfies the goal. -/
theorem astarLoop_success (goal : Planner.ShrdliteNode → Bool) (heur : Planner.ShrdliteNode → JSNum)
    (startNode : Planner.ShrdliteNode) :
    ∀ (fuel : Nat) (frontier : List Planner.SearchNode) (table : List (String × JSNum))
      (p : List Planner.Successor) (c : Int) (v : Nat),
    (∀ sn ∈ frontier, Planner.ValidSN startNode sn) →
    Planner.astarLoop goal heur startNode fuel frontier table = ⟨"success", p, c, v⟩ →
    ∃ sn, Planner.ValidSN startNode sn ∧ goal (sn.graphnode startNode) = true
      ∧ p = sn.path ∧ c = sn.totalcost := by
  intro fuel
  induction fuel with
  | zero =>
    intro frontier table p c v _ h
    simp only [Planner.astarLoop, Planner.SearchResult.mk.injEq] at h
    exact absurd h.1 (by decide)
  | succ fuel ih =>
    intro frontier table p c v hvalid h
    simp only [Planner.astarLoop] at h
    cases hdq : Planner.dequeueMin frontier with
    | none =>
      rw [hdq] at h
      simp only [Planner.SearchResult.mk.injEq] at h
      exact absurd h.1 (by decide)
    | some pair =>
      obtain ⟨sn, rest⟩ := pair
      rw [hdq] at h
      obtain ⟨hsnmem, hrest⟩ := dequeueMin_mem frontier sn rest hdq
      dsimp only at h
      split at h
      · rename_i hgoal
        simp only [Planner.SearchResult.mk.injEq] at h
        exact ⟨sn, hvalid sn hsnmem, hgoal, h.2.1.symm, h.2.2.1.symm⟩
      · refine ih _ _ p c v ?_ h
        intro x hx
        rcases expand_mem heur sn (Planner.successors (sn.graphnode startNode)) (rest, table) x hx
          with h2 | ⟨e, he, ac, hx2⟩
        · exact hvalid x (hrest x h2)
        · rw [hx2]
          exact Planner.ValidSN.child sn e ac (hvalid sn hsnmem) he

/-- C5: for every planner run that returns success, executing the
returned action string (characters from l, r, p, d) step by step from the
start world with the state graph's own transition function reaches a
state that satisfies the DNF goal test, and the reported cost equals the
length of the action string. -/
theorem C5_planner_success_sound (w : WorldState) (intp : DNFFormula) (fuel : Nat)
    (p : List Planner.Successor) (c : Int) (v : Nat)
    (h : Planner.aStarSearch (Planner.goalTest intp) (Planner.heuristics intp)
          (Planner.mkNode w) fuel = ⟨"success", p, c, v⟩) :
    ∃ w2, Planner.execActions w (p.map (fun e => e.action)) = some w2
      ∧ Planner.goalTest intp (Planner.mkNode w2) = true
      ∧ c = ((p.map (fun e => e.action)).length : Int)
      ∧ ∀ a ∈ p.map (fun e => e.action), a ∈ (["l", "r", "p", "d"] : List String) := by
  unfold Planner.aStarSearch at h
  obtain ⟨sn, hvalid, hgoal, hp, hc⟩ :=
    astarLoop_success (Planner.goalTest intp) (Planner.heuristics intp) (Planner.mkNode w)
      fuel _ _ p c v
      (by
        intro x hx
        rw [List.mem_singleton.mp hx]
        exact Planner.ValidSN.start _)
      h
  obtain ⟨hexec, hcost, hacts⟩ := valid_exec (Planner.mkNode w) sn hvalid
  refine ⟨(sn.graphnode (Planner.mkNode w)).state, ?_, ?_, ?_, ?_⟩
  · rw [hp]
    exact hexec
  · exact hgoal
  · rw [hp, hc, hcost]
    simp
  · intro a ha
    rw [hp] at ha
    obtain ⟨e2, he2, ha2⟩ := List.mem_map.mp ha
    exact ha2 ▸ hacts e2 he2

/-- C5 witness: the soundness theorem applied to a concrete two-step run
that picks up the only ball to satisfy `holding(b1)`. -/
theorem C5_planner_success_sound_witness :
    ∃ w2, Planner.execActions wBall1
        (([(⟨"p", Planner.mkNode wBall1p, 1⟩ : Planner.Successor)]).map (fun e => e.action))
        = some w2
      ∧ Planner.goalTest dnfHold (Planner.mkNode w2) = true
      ∧ (1 : Int)
        = ((([(⟨"p", Planner.mkNode wBall1p, 1⟩ : Planner.Successor)]).map
            (fun e => e.action)).length : Int)
      ∧ ∀ a ∈ ([(⟨"p", Planner.mkNode wBall1p, 1⟩ : Planner.Successor)]).map (fun e => e.action),
          a ∈ (["l", "r", "p", "d"] : List String) :=
  C5_planner_success_sound wBall1 dnfHold 2 [⟨"p", Planner.mkNode wBall1p, 1⟩] 1 2 (by rfl)
